import Mathlib

/-!
# ZKAR: the Java serialization stream codec

A shallow embedding of three record codecs of the repository
(`tc_null.go`, `serz/tc_object.go`, `serialization/tc_normalclassdesc.go`)
and theorems about them.

* Bytes are `Fin 256`; wider machine integers are `Nat`/`Int` with explicit
  reduction modulo `2^w`.
* A reader is a function from the stream state to a result and the stream
  state it leaves behind (also when it fails).
* The readers and encoders of the other record kinds (`readUTF`,
  `readTCField`, `readTCContent`, `readTCClassPointer`, `FindClassBag`,
  `readTCClassData` and the `ToBytes` methods of their results) are not part
  of the three files; they are parameters, collected in `Env`.
-/

namespace ZKAR

/-! ## Bytes, constants, errors -/

abbrev Byte := Fin 256

/-- Modelled from the spec: the tag byte `TC_NULL` of the stream protocol
(the constant is declared outside the three source files). -/
def JAVA_TC_NULL : Byte := 0x70

/-- Modelled from the spec: the tag byte `TC_CLASSDESC` of the stream protocol. -/
def JAVA_TC_CLASSDESC : Byte := 0x72

/-- Modelled from the spec: the tag byte `TC_OBJECT` of the stream protocol. -/
def JAVA_TC_OBJECT : Byte := 0x73

/-- Modelled from the spec: the tag byte `TC_ENDBLOCKDATA` of the stream protocol. -/
def JAVA_TC_ENDBLOCKDATA : Byte := 0x78

/-- Modelled from the spec: the flag bit `SC_WRITE_METHOD` of the stream protocol. -/
def JAVA_SC_WRITE_METHOD : Byte := 0x01

/-- Modelled from the spec: the flag bit `SC_SERIALIZABLE` of the stream protocol. -/
def JAVA_SC_SERIALIZABLE : Byte := 0x02

/-- Modelled from the spec: the flag bit `SC_EXTERNALIZABLE` of the stream protocol. -/
def JAVA_SC_EXTERNALIZABLE : Byte := 0x04

/-- Modelled from the spec: the flag bit `SC_BLOCK_DATA` of the stream protocol. -/
def JAVA_SC_BLOCK_DATA : Byte := 0x08

/-- Modelled from the spec: the baseline handle value of the stream protocol,
assigned to the first referenceable record. -/
def JAVA_BASE_WIRE_HANDLE : Nat := 0x7E0000

/-- Go `error` values. `errorf format index` is `fmt.Errorf(format, index)`;
`unexpectedEndOfStream` is the stream's own error; `external` is an error
raised by one of the collaborating readers. -/
inductive Error where
  | unexpectedEndOfStream : Error
  | errorf (format : String) (index : Nat) : Error
  | external (msg : String) : Error
  deriving DecidableEq, Repr

/-! ## Big-endian numbers -/

/-- The `w` low-order base-256 digits of `n`, most significant first. -/
def bigEndianBytes : Nat → Nat → List Byte
  | 0, _ => []
  | w + 1, n => ⟨(n / 256 ^ w) % 256, Nat.mod_lt _ (by decide)⟩ :: bigEndianBytes w n

/-- The number whose base-256 digits, most significant first, are `bs`. -/
def bigEndianValue (bs : List Byte) : Nat :=
  bs.foldl (fun acc b => acc * 256 + b.val) 0

/-- Go `binary.BigEndian.Uint16`: the first two bytes read big-endian. -/
def BigEndian_Uint16 (bs : List Byte) : Nat := bigEndianValue (bs.take 2)

/-- Go `binary.BigEndian.Uint64`: the first eight bytes read big-endian. -/
def BigEndian_Uint64 (bs : List Byte) : Nat := bigEndianValue (bs.take 8)

/-- Go conversion `int64(u)` of a `uint64` value: two's complement. -/
def int64OfUint64 (u : Nat) : Int :=
  if u % 2 ^ 64 < 2 ^ 63 then ((u % 2 ^ 64 : Nat) : Int) else ((u % 2 ^ 64 : Nat) : Int) - 2 ^ 64

/-- Go conversion `uint16(n)` of an `int` value: truncation to 16 bits. -/
def uint16OfInt (n : Nat) : Nat := n % 2 ^ 16

/-- Modelled from the spec: `NumberToBytes` at type `uint16`, the big-endian
integer encoder (the helper is declared outside the three source files). -/
def NumberToBytes_uint16 (v : Nat) : List Byte := bigEndianBytes 2 (v % 2 ^ 16)

/-- Modelled from the spec: `NumberToBytes` at type `int64`, the big-endian
integer encoder of the two's-complement representation. -/
def NumberToBytes_int64 (v : Int) : List Byte := bigEndianBytes 8 (v % 2 ^ 64).toNat

/-! ## The stream and its handle table -/

/-- An entry of the handle table. Go stores a pointer to the record; the entry
holds the fields the record has at the moment `AddReference` is called: a class
descriptor has its name and version id only (flag byte, fields, annotations and
super-class pointer are still unset), an object has its class pointer only.
`other` stands for the records registered by the collaborating readers. -/
inductive Reference (U P X : Type) where
  | classDesc (ClassName : U) (SerialVersionUID : Int) : Reference U P X
  | object (ClassPointer : P) : Reference U P X
  | other (x : X) : Reference U P X
  deriving DecidableEq, Repr

/-- Modelled from the spec: the byte cursor and handle table (`ObjectStream` is
declared outside the three source files): the input buffer, the read position
and the append-only list of registered records. -/
structure ObjectStream (U P X : Type) where
  bs : List Byte
  current : Nat
  references : List (Reference U P X)
  deriving DecidableEq, Repr

/-- A reader: the result, and the stream state after the call. -/
abbrev Reader (U P X α : Type) := ObjectStream U P X → Except Error α × ObjectStream U P X

section Stream
variable {U P X : Type}

/-- Modelled from the spec: `readN(k)` consumes and returns the next `k` bytes,
advancing the position; it fails when fewer than `k` bytes remain. A failed
read is taken to leave the stream as it is; the only failed read after which a
reader goes on is `ReadN(1)` on a stream with no unread byte, where there is
nothing to consume. -/
def ObjectStream.ReadN (s : ObjectStream U P X) (n : Nat) :
    Except Error (List Byte) × ObjectStream U P X :=
  if s.current + n ≤ s.bs.length then
    (.ok ((s.bs.drop s.current).take n), { s with current := s.current + n })
  else
    (.error .unexpectedEndOfStream, s)

/-- Modelled from the spec: `peekN(k)` returns the next `k` bytes without
advancing, with the failure mode of `readN`. -/
def ObjectStream.PeekN (s : ObjectStream U P X) (n : Nat) :
    Except Error (List Byte) × ObjectStream U P X :=
  if s.current + n ≤ s.bs.length then
    (.ok ((s.bs.drop s.current).take n), s)
  else
    (.error .unexpectedEndOfStream, s)

/-- Modelled from the spec: `currentIndex()` is the current byte offset. -/
def ObjectStream.CurrentIndex (s : ObjectStream U P X) : Nat := s.current

/-- Modelled from the spec: `addReference(obj)` appends `obj` to the handle
table and assigns it the next sequential handle (a `uint32`), counted from the
protocol's baseline. Returns the handle and the new stream state. -/
def ObjectStream.AddReference (s : ObjectStream U P X) (r : Reference U P X) :
    Nat × ObjectStream U P X :=
  ((JAVA_BASE_WIRE_HANDLE + s.references.length) % 2 ^ 32,
    { s with references := s.references ++ [r] })

/-- The bytes of the buffer between the positions of two stream states: what
a reader that went from `s` to `t` consumed. -/
def consumed (s t : ObjectStream U P X) : List Byte :=
  (s.bs.drop s.current).take (t.current - s.current)

/-- The bytes not yet read. -/
def ObjectStream.remaining (s : ObjectStream U P X) : List Byte := s.bs.drop s.current

/-- The stream `s` with the position moved forward by `n` and the handle table
replaced by `refs`. -/
def ObjectStream.advance (s : ObjectStream U P X) (n : Nat) (refs : List (Reference U P X)) :
    ObjectStream U P X :=
  { bs := s.bs, current := s.current + n, references := refs }

end Stream

/-! ## Records -/

/-- The Go struct `TCNull`: it has no fields. -/
structure TCNull where
  deriving DecidableEq, Repr

/-- The Go struct `TCClassDesc`. -/
structure TCClassDesc (U F C P : Type) where
  ClassName : U
  SerialVersionUID : Int
  ClassDescFlags : Byte
  Fields : List F
  ClassAnnotation : List C
  SuperClassPointer : P
  Handler : Nat
  deriving DecidableEq, Repr

/-- The Go struct `TCObject`. -/
structure TCObject (P D : Type) where
  ClassPointer : P
  ClassDatas : List D
  Handler : Nat
  deriving DecidableEq, Repr

/-- The result of `FindClassBag`: the class descriptors of the super-class
chain, most-derived first. -/
structure ClassBag (U F C P : Type) where
  Classes : List (TCClassDesc U F C P)

/-- The collaborators of the three record codecs: the readers of the other
record kinds and the `ToBytes` methods of their results. `U`, `F`, `C`, `P`,
`D` stand for the Go types `TCUtf`, `TCFieldDesc`, `TCContent`,
`TCClassPointer`, `TCClassData`. -/
structure Env (U F C P D X : Type) where
  TCUtf_ToBytes : U → List Byte
  TCFieldDesc_ToBytes : F → List Byte
  TCContent_ToBytes : C → List Byte
  TCClassPointer_ToBytes : P → List Byte
  TCClassData_ToBytes : D → List Byte
  TCClassPointer_Flag : P → Byte
  readUTF : Reader U P X U
  readTCField : Reader U P X F
  readTCContent : Reader U P X C
  readTCClassPointer : Reader U P X P
  FindClassBag : P → Reader U P X (ClassBag U F C P)
  readTCClassData : TCClassDesc U F C P → Reader U P X D

section Codec
variable {U F C P D X : Type}

/-! ### `tc_null.go` -/

/-- `TCNull.ToBytes`. -/
def TCNull.ToBytes (_n : TCNull) : List Byte := [JAVA_TC_NULL]

/-- `readTCNull`: reads one byte, discards both the byte and the error of the
read, and returns a new `TCNull`. The function has no error result. -/
def readTCNull (stream : ObjectStream U P X) : TCNull × ObjectStream U P X :=
  let s1 := (stream.ReadN 1).2
  ({}, s1)

/-! ### `serialization/tc_normalclassdesc.go` -/

/-- `TCClassDesc.ToBytes`. -/
def TCClassDesc.ToBytes (E : Env U F C P D X) (desc : TCClassDesc U F C P) : List Byte :=
  let result := [JAVA_TC_CLASSDESC]
  let result := result ++ E.TCUtf_ToBytes desc.ClassName
  let result := result ++ NumberToBytes_int64 desc.SerialVersionUID
  let result := result ++ [desc.ClassDescFlags]
  let result := result ++ NumberToBytes_uint16 (uint16OfInt desc.Fields.length)
  let result := desc.Fields.foldl (fun acc field => acc ++ E.TCFieldDesc_ToBytes field) result
  let result := List.foldl (fun acc content => acc ++ E.TCContent_ToBytes content) result
    desc.ClassAnnotation
  let result := result ++ [JAVA_TC_ENDBLOCKDATA]
  result ++ E.TCClassPointer_ToBytes desc.SuperClassPointer

/-- `TCClassDesc.HasFlag`: `(desc.ClassDescFlags & flag) == flag`. The bitwise
and of two bytes is computed on their values; it cannot overflow. -/
def TCClassDesc.HasFlag (desc : TCClassDesc U F C P) (flag : Byte) : Bool :=
  decide (desc.ClassDescFlags.val &&& flag.val = flag.val)

/-- `TCClassDesc.FlagString`: the names of the set flags, joined by `|`. -/
def TCClassDesc.FlagString (desc : TCClassDesc U F C P) : String :=
  let descFlags : List String := []
  let descFlags :=
    if desc.HasFlag JAVA_SC_SERIALIZABLE then descFlags ++ ["SC_SERIALIZABLE"] else descFlags
  let descFlags :=
    if desc.HasFlag JAVA_SC_WRITE_METHOD then descFlags ++ ["SC_WRITE_METHOD"] else descFlags
  let descFlags :=
    if desc.HasFlag JAVA_SC_EXTERNALIZABLE then descFlags ++ ["SC_EXTERNALIZABLE"] else descFlags
  let descFlags :=
    if desc.HasFlag JAVA_SC_BLOCK_DATA then descFlags ++ ["SC_BLOCK_DATA"] else descFlags
  "|".intercalate descFlags

/-- `readSerialVersionUID`. -/
def readSerialVersionUID (stream : ObjectStream U P X) : Except Error Int × ObjectStream U P X :=
  match stream.ReadN 8 with
  | (.error _, s1) =>
    (.error (.errorf "read SerialVersionUID failed on index %v" s1.CurrentIndex), s1)
  | (.ok bs, s1) => (.ok (int64OfUint64 (BigEndian_Uint64 bs)), s1)

/-- The loop of `readTCFields`: `n` is the number of iterations still to run
(`fieldsLength - i`). -/
def readTCFieldsLoop (E : Env U F C P D X) :
    Nat → List F → ObjectStream U P X → Except Error (List F) × ObjectStream U P X
  | 0, fields, s => (.ok fields, s)
  | n + 1, fields, s =>
    match E.readTCField s with
    | (.error e, s1) => (.error e, s1)
    | (.ok field, s1) => readTCFieldsLoop E n (fields ++ [field]) s1

/-- `readTCFields`. -/
def readTCFields (E : Env U F C P D X) (stream : ObjectStream U P X) :
    Except Error (List F) × ObjectStream U P X :=
  match stream.ReadN 2 with
  | (.error _, s1) =>
    (.error (.errorf "read JAVA_TC_CLASSDESC failed on index %v" s1.CurrentIndex), s1)
  | (.ok bs, s1) =>
    let fieldsLength := BigEndian_Uint16 bs
    readTCFieldsLoop E fieldsLength [] s1

/-- The loop of `readTCAnnotation`. The Go loop is unbounded; `fuel` bounds
the number of iterations, and `none` means the bound was reached. -/
def readTCAnnotationLoop (E : Env U F C P D X) :
    Nat → List C → ObjectStream U P X → Option (Except Error (List C) × ObjectStream U P X)
  | 0, _, _ => none
  | fuel + 1, contents, s =>
    match s.PeekN 1 with
    | (.error _, s1) =>
      some (.error (.errorf "read classAnnotation failed on index %v" s1.CurrentIndex), s1)
    | (.ok bs, s1) =>
      if bs.headD 0 = JAVA_TC_ENDBLOCKDATA then
        some (.ok contents, (s1.ReadN 1).2)
      else
        match E.readTCContent s1 with
        | (.error e, s2) => some (.error e, s2)
        | (.ok content, s2) => readTCAnnotationLoop E fuel (contents ++ [content]) s2

/-- `readTCAnnotation`, with the iteration bound `fuel`. -/
def readTCAnnotation (E : Env U F C P D X) (fuel : Nat) (stream : ObjectStream U P X) :
    Option (Except Error (List C) × ObjectStream U P X) :=
  readTCAnnotationLoop E fuel [] stream

/-- `readTCNormalClassDesc`, with the iteration bound `fuel` of the
annotation loop. The first `ReadN(1)` discards both its result and its error.
The Go function fills the fields of one `TCClassDesc` object step by step and
returns `nil` with every error; here the descriptor is built at the end.
`Handler` is the handle `AddReference` assigns to the object it registers. -/
def readTCNormalClassDesc (E : Env U F C P D X) (fuel : Nat) (stream : ObjectStream U P X) :
    Option (Except Error (TCClassDesc U F C P) × ObjectStream U P X) :=
  let s0 := (stream.ReadN 1).2
  match E.readUTF s0 with
  | (.error e, s1) => some (.error e, s1)
  | (.ok className, s1) =>
    match readSerialVersionUID s1 with
    | (.error e, s2) => some (.error e, s2)
    | (.ok uid, s2) =>
      let (handler, s3) := s2.AddReference (Reference.classDesc className uid)
      match s3.ReadN 1 with
      | (.error _, s4) =>
        some (.error (.errorf "read JAVA_TC_CLASSDESC failed on index %v" s4.CurrentIndex), s4)
      | (.ok bs, s4) =>
        match readTCFields E s4 with
        | (.error e, s5) => some (.error e, s5)
        | (.ok fields, s5) =>
          match readTCAnnotation E fuel s5 with
          | none => none
          | some (.error e, s6) => some (.error e, s6)
          | some (.ok contents, s6) =>
            match E.readTCClassPointer s6 with
            | (.error e, s7) => some (.error e, s7)
            | (.ok superClassPointer, s7) =>
              some (.ok { ClassName := className, SerialVersionUID := uid,
                          ClassDescFlags := bs.headD 0, Fields := fields,
                          ClassAnnotation := contents,
                          SuperClassPointer := superClassPointer,
                          Handler := handler }, s7)

/-! ### `serz/tc_object.go` -/

/-- `TCObject.ToBytes`. -/
def TCObject.ToBytes (E : Env U F C P D X) (oo : TCObject P D) : List Byte :=
  let bs := [JAVA_TC_OBJECT]
  let bs := bs ++ E.TCClassPointer_ToBytes oo.ClassPointer
  oo.ClassDatas.foldl (fun acc data => acc ++ E.TCClassData_ToBytes data) bs

/-- The loop of `readTCObject`: the first argument is `i + 1` for the Go loop
index `i`, which runs from `len(bag.Classes) - 1` down to `0`. An index out of
range (a Go panic) cannot occur, since the loop starts below the length. -/
def readTCObjectLoop (E : Env U F C P D X) (classes : List (TCClassDesc U F C P)) :
    Nat → List D → ObjectStream U P X → Except Error (List D) × ObjectStream U P X
  | 0, datas, s => (.ok datas, s)
  | i + 1, datas, s =>
    match classes[i]? with
    | none => (.error (.external "index out of range"), s)
    | some c =>
      match E.readTCClassData c s with
      | (.error e, s1) => (.error e, s1)
      | (.ok classData, s1) => readTCObjectLoop E classes i (datas ++ [classData]) s1

/-- `readTCObject`. The first `ReadN(1)` discards both its result and its error.
`Handler` is the handle `AddReference` assigns to the object it registers. -/
def readTCObject (E : Env U F C P D X) (stream : ObjectStream U P X) :
    Except Error (TCObject P D) × ObjectStream U P X :=
  let s0 := (stream.ReadN 1).2
  match E.readTCClassPointer s0 with
  | (.error e, s1) => (.error e, s1)
  | (.ok classPointer, s1) =>
    let (handler, s2) := s1.AddReference (Reference.object classPointer)
    if E.TCClassPointer_Flag classPointer = JAVA_TC_NULL then
      (.ok { ClassPointer := classPointer, ClassDatas := [], Handler := handler }, s2)
    else
      match E.FindClassBag classPointer s2 with
      | (.error e, s3) => (.error e, s3)
      | (.ok bag, s3) =>
        match readTCObjectLoop E bag.Classes bag.Classes.length [] s3 with
        | (.error e, s4) => (.error e, s4)
        | (.ok datas, s4) =>
          (.ok { ClassPointer := classPointer, ClassDatas := datas, Handler := handler }, s4)

/-- The two bytes of an encoded class descriptor that stand between the flag
byte and the first field descriptor: they follow the tag byte, the class name,
the eight bytes of the version id and the flag byte. -/
def fieldCountBytes (E : Env U F C P D X) (desc : TCClassDesc U F C P) : List Byte :=
  ((desc.ToBytes E).drop (1 + (E.TCUtf_ToBytes desc.ClassName).length + 8 + 1)).take 2

end Codec

/-! ## Properties of readers -/

section Predicates
variable {U P X α : Type}

/-- The reader went from `s` to `t` over the same buffer, moving forward, and
the bytes between the two positions are `w`. -/
def Reads (s t : ObjectStream U P X) (w : List Byte) : Prop :=
  t.bs = s.bs ∧ s.current ≤ t.current ∧ consumed s t = w

/-- The round-trip property of a reader: whenever it succeeds, the encoding of
its result is exactly the bytes it consumed. -/
def RoundTrips (toBytes : α → List Byte) (r : Reader U P X α) : Prop :=
  ∀ s v t, r s = (.ok v, t) → Reads s t (toBytes v)

/-- The contract of `readTCClassPointer` on the null tag: when the next byte
is `TC_NULL` it consumes that byte, leaves the handle table alone and returns
the null variant, whose `Flag` is `TC_NULL`. -/
def ReadsNullPointer {F C D : Type} (E : Env U F C P D X) : Prop :=
  ∀ s : ObjectStream U P X, s.bs[s.current]? = some JAVA_TC_NULL →
    ∃ p, E.readTCClassPointer s = (.ok p, { s with current := s.current + 1 }) ∧
      E.TCClassPointer_Flag p = JAVA_TC_NULL

/-- The reader, when it succeeds, leaves the buffer as it is and does not move
the position backwards. -/
def KeepsBuffer (r : Reader U P X α) : Prop :=
  ∀ s v t, r s = (.ok v, t) → t.bs = s.bs ∧ s.current ≤ t.current

/-- The reader leaves the handle table alone, whether it succeeds or fails. -/
def KeepsReferences (r : Reader U P X α) : Prop :=
  ∀ s : ObjectStream U P X, (r s).2.references = s.references

/-- The reader, when it succeeds, only appends to the handle table. -/
def AppendsOnly (r : Reader U P X α) : Prop :=
  ∀ s v t, r s = (.ok v, t) → ∃ added, t.references = s.references ++ added

/-- The reader fails on a stream with no unread byte. -/
def FailsAtEnd (r : Reader U P X α) : Prop :=
  ∀ s : ObjectStream U P X, s.bs.length ≤ s.current → ∃ e t, r s = (.error e, t)

end Predicates

/-! ## Readers that depend only on the bytes they consume -/

section Bounded
variable {U F C P D X α β : Type}

/-- A reader with an iteration bound: `none` means the bound was reached. -/
abbrev BoundedReader (U P X α : Type) :=
  ObjectStream U P X → Option (Except Error α × ObjectStream U P X)

/-- A reader without a loop, seen as a bounded reader. -/
def boundedOf (r : Reader U P X α) : BoundedReader U P X α := fun s => some (r s)

/-- Sequencing of bounded readers: an error or a reached bound of the first
ends the run. -/
def BoundedReader.andThen (r : BoundedReader U P X α) (f : α → BoundedReader U P X β) :
    BoundedReader U P X β := fun s =>
  match r s with
  | none => none
  | some (.error e, t) => some (.error e, t)
  | some (.ok a, t) => f a t

/-- The reader's decision depends only on the unread bytes it consumes and on
the handle table. Whenever it succeeds from `s` to `t`, it has kept the buffer
and consumed the bytes between the two positions, and on every stream `s'`
with the same handle table: if the unread bytes of `s'` start with the
consumed bytes it succeeds with the same result, position advance and handle
table; if the unread bytes of `s'` are a proper prefix of the consumed bytes
(the stream ends inside the record) it returns an error. -/
def PrefixDetermined (r : BoundedReader U P X α) : Prop :=
  ∀ s v t, r s = some (.ok v, t) →
    t.bs = s.bs ∧ s.current ≤ t.current ∧ (consumed s t).length = t.current - s.current ∧
    ∀ s' : ObjectStream U P X, s'.references = s.references →
      (consumed s t <+: s'.remaining →
        r s' = some (.ok v, s'.advance (t.current - s.current) t.references)) ∧
      (s'.remaining <+: consumed s t → s'.remaining ≠ consumed s t →
        ∃ e t', r s' = some (.error e, t'))

/-- A read of `n` bytes whose error is replaced by `err` at the current index
and whose result is mapped by `g`. -/
def readNStep (n : Nat) (g : List Byte → β) (err : Nat → Error) : BoundedReader U P X β :=
  fun s =>
    match s.ReadN n with
    | (.error _, s1) => some (.error (err s1.CurrentIndex), s1)
    | (.ok bs, s1) => some (.ok (g bs), s1)

/-- The registration step, as a bounded reader returning the handle. -/
def addReferenceStep (r : Reference U P X) : BoundedReader U P X Nat :=
  fun s => some (.ok (s.AddReference r).1, (s.AddReference r).2)

/-- The steps of `readTCNormalClassDesc` that follow the read of the tag byte,
written as a sequence. -/
def classDescBody (E : Env U F C P D X) (fuel : Nat) :
    BoundedReader U P X (TCClassDesc U F C P) :=
  (boundedOf E.readUTF).andThen fun className =>
  (boundedOf readSerialVersionUID).andThen fun uid =>
  (addReferenceStep (Reference.classDesc className uid)).andThen fun handler =>
  (readNStep 1 id (Error.errorf "read JAVA_TC_CLASSDESC failed on index %v")).andThen fun bs =>
  (boundedOf (readTCFields E)).andThen fun fields =>
  BoundedReader.andThen ( readTCAnnotation E fuel) fun contents =>
  (boundedOf E.readTCClassPointer).andThen fun superClassPointer =>
  fun s7 => some (.ok { ClassName := className, SerialVersionUID := uid,
                        ClassDescFlags := bs.headD 0, Fields := fields,
                        ClassAnnotation := contents,
                        SuperClassPointer := superClassPointer,
                        Handler := handler }, s7)

end Bounded

/-! ## A small instance of the collaborators

Used to run the readers on concrete streams. Strings are a two-byte
big-endian length followed by that many bytes; a field descriptor is a
type-code byte and a name string; the only content record is the null record;
a class pointer is either null or a back-reference (tag `0x71` and a four-byte
handle); a field-data block is one byte. -/

section Sample

/-- Lifts a parser of the bytes not yet read (it returns a value and the
number of bytes it used) to a reader; the handle table is left alone. -/
def liftParser {U P X α : Type} (p : List Byte → Option (α × Nat)) : Reader U P X α :=
  fun s =>
    match p (s.bs.drop s.current) with
    | some (v, n) => (.ok v, { s with current := s.current + n })
    | none => (.error (.external "malformed record"), s)

/-- The sample string parser: a two-byte length, then the payload. -/
def parseUTF : List Byte → Option (List Byte × Nat)
  | a :: b :: rest =>
    if a.val * 256 + b.val ≤ rest.length then
      some (rest.take (a.val * 256 + b.val), a.val * 256 + b.val + 2)
    else none
  | _ => none

/-- The sample string encoder. -/
def utfToBytes (payload : List Byte) : List Byte :=
  NumberToBytes_uint16 payload.length ++ payload

/-- The sample field-descriptor parser: a type code, then the name. -/
def parseField : List Byte → Option ((Byte × List Byte) × Nat)
  | code :: rest =>
    match parseUTF rest with
    | some (name, n) => some ((code, name), n + 1)
    | none => none
  | [] => none

/-- The sample field-descriptor encoder. -/
def fieldToBytes (f : Byte × List Byte) : List Byte := f.1 :: utfToBytes f.2

/-- The sample content parser: only the null record is supported. -/
def parseContent : List Byte → Option (TCNull × Nat)
  | b :: _ => if b = JAVA_TC_NULL then some ({}, 1) else none
  | [] => none

/-- The tag byte of a back-reference in the stream protocol. -/
def JAVA_TC_REFERENCE : Byte := 0x71

/-- The sample class-pointer parser: `none` is the null pointer, `some h` a
back-reference to the handle `h`. -/
def parsePointer : List Byte → Option (Option Nat × Nat)
  | b :: rest =>
    if b = JAVA_TC_NULL then some (none, 1)
    else if b = JAVA_TC_REFERENCE then
      if 4 ≤ rest.length then some (some (bigEndianValue (rest.take 4)), 5) else none
    else none
  | [] => none

/-- The sample class-pointer encoder. -/
def pointerToBytes : Option Nat → List Byte
  | none => [JAVA_TC_NULL]
  | some h => JAVA_TC_REFERENCE :: bigEndianBytes 4 h

/-- The tag of a sample class pointer. -/
def pointerFlag : Option Nat → Byte
  | none => JAVA_TC_NULL
  | some _ => JAVA_TC_REFERENCE

/-- The sample field-data parser: one byte, whatever the class. -/
def parseClassData : List Byte → Option (Byte × Nat)
  | b :: _ => some (b, 1)
  | [] => none

/-- The class descriptor the sample `FindClassBag` builds from a handle-table
entry. -/
def classOfReference : Reference (List Byte) (Option Nat) Unit →
    Option (TCClassDesc (List Byte) (Byte × List Byte) TCNull (Option Nat))
  | .classDesc name uid =>
    some { ClassName := name, SerialVersionUID := uid, ClassDescFlags := 0x02, Fields := [],
           ClassAnnotation := [], SuperClassPointer := none, Handler := 0 }
  | _ => none

/-- The sample `FindClassBag`: the null pointer has the empty bag; a
back-reference to the `i`-th entry of the handle table has the class
descriptors registered up to that entry, the latest first (every class is
taken to extend the class registered before it). It reads nothing. -/
def sampleFindClassBag (p : Option Nat) :
    Reader (List Byte) (Option Nat) Unit
      (ClassBag (List Byte) (Byte × List Byte) TCNull (Option Nat)) :=
  fun s =>
    match p with
    | none => (.ok { Classes := [] }, s)
    | some h =>
      if JAVA_BASE_WIRE_HANDLE ≤ h ∧ h - JAVA_BASE_WIRE_HANDLE < s.references.length then
        let entries := (s.references.take (h - JAVA_BASE_WIRE_HANDLE + 1)).reverse
        (.ok { Classes := entries.filterMap classOfReference }, s)
      else (.error (.external "unresolved handle"), s)

/-- The sample collaborators. -/
def sampleEnv : Env (List Byte) (Byte × List Byte) TCNull (Option Nat) Byte Unit where
  TCUtf_ToBytes := utfToBytes
  TCFieldDesc_ToBytes := fieldToBytes
  TCContent_ToBytes := TCNull.ToBytes
  TCClassPointer_ToBytes := pointerToBytes
  TCClassData_ToBytes := fun b => [b]
  TCClassPointer_Flag := pointerFlag
  readUTF := liftParser parseUTF
  readTCField := liftParser parseField
  readTCContent := liftParser parseContent
  readTCClassPointer := liftParser parsePointer
  FindClassBag := sampleFindClassBag
  readTCClassData := fun _ => liftParser parseClassData

/-- A stream over the sample collaborators, at position `0` with an empty
handle table. -/
def sampleStream (bs : List Byte) : ObjectStream (List Byte) (Option Nat) Unit :=
  { bs := bs, current := 0, references := [] }

/-- The encoded descriptor of a class named `A` with version id `1`, the
serializable flag, one field `a` of type `I`, one null annotation and no
super class. -/
def classDescBytes : List Byte :=
  [0x72, 0x00, 0x01, 0x41, 0, 0, 0, 0, 0, 0, 0, 1, 0x02, 0x00, 0x01, 0x49, 0x00, 0x01, 0x61,
   0x70, 0x78, 0x70]

/-- A class descriptor with 65536 fields. -/
def classDescManyFields : TCClassDesc (List Byte) (Byte × List Byte) TCNull (Option Nat) :=
  { ClassName := [0x41], SerialVersionUID := 1, ClassDescFlags := 0x02,
    Fields := List.replicate 65536 (0x49, [0x61]), ClassAnnotation := [],
    SuperClassPointer := none, Handler := 0x7E0000 }

/-- The descriptor encoded by `classDescBytes`. -/
def classDescA : TCClassDesc (List Byte) (Byte × List Byte) TCNull (Option Nat) :=
  { ClassName := [0x41], SerialVersionUID := 1, ClassDescFlags := 0x02,
    Fields := [(0x49, [0x61])], ClassAnnotation := [TCNull.mk], SuperClassPointer := none,
    Handler := 0x7E0000 }

/-- A handle table holding three class descriptors, registered root first:
`R` (handle `0x7E0000`), `M` (`0x7E0001`), `L` (`0x7E0002`). -/
def threeClasses : List (Reference (List Byte) (Option Nat) Unit) :=
  [Reference.classDesc [0x52] 1, Reference.classDesc [0x4D] 2, Reference.classDesc [0x4C] 3]

/-- A stream holding an object of class `L` (a back-reference to the handle
`0x7E0002`) with the three field-data blocks `0xAA`, `0xBB`, `0xCC`, read with
the table `threeClasses`. -/
def objectStream : ObjectStream (List Byte) (Option Nat) Unit :=
  { bs := [0x73, 0x71, 0x00, 0x7E, 0x00, 0x02, 0xAA, 0xBB, 0xCC], current := 0,
    references := threeClasses }

/-- The object held by `objectStream`. -/
def objectL : TCObject (Option Nat) Byte :=
  { ClassPointer := some 0x7E0002, ClassDatas := [0xAA, 0xBB, 0xCC], Handler := 0x7E0003 }

/-- The class bag of the class `L`: `L`, `M`, `R`. -/
def bagL : ClassBag (List Byte) (Byte × List Byte) TCNull (Option Nat) :=
  { Classes := threeClasses.reverse.filterMap classOfReference }

end Sample

/-! ## Runs of records -/

section Runs
variable {U F C P D X : Type}

/-- The stream holds the content records `cs` one after the other between the
states `s` and `t`: each record starts with a byte other than
`TC_ENDBLOCKDATA` and is read by `readTCContent`, which leaves the state from
which the next record is read. -/
def HoldsContents (E : Env U F C P D X) :
    List C → ObjectStream U P X → ObjectStream U P X → Prop
  | [], s, t => s = t
  | c :: cs, s, t =>
    ∃ b rest s1, s.remaining = b :: rest ∧ b ≠ JAVA_TC_ENDBLOCKDATA ∧
      E.readTCContent s = (.ok c, s1) ∧ HoldsContents E cs s1 t

/-- Starting from `s`, the field-data blocks `ds` of the classes `cs` are read
one after the other by `readTCClassData`, in list order, reaching `t`. -/
def ReadsBlocks (E : Env U F C P D X) :
    List (TCClassDesc U F C P) → List D → ObjectStream U P X → ObjectStream U P X → Prop
  | [], [], s, t => s = t
  | c :: cs, d :: ds, s, t =>
    ∃ s1, E.readTCClassData c s = (.ok d, s1) ∧ ReadsBlocks E cs ds s1 t
  | _, _, _, _ => False

end Runs

/-- The names of those of the four defined flags whose bit is set in the flag
byte `b`, in the order `SC_SERIALIZABLE` (bit 1), `SC_WRITE_METHOD` (bit 0),
`SC_EXTERNALIZABLE` (bit 2), `SC_BLOCK_DATA` (bit 3). -/
def setFlagNames (b : Byte) : List String :=
  (if b.val.testBit 1 then ["SC_SERIALIZABLE"] else [])
    ++ (if b.val.testBit 0 then ["SC_WRITE_METHOD"] else [])
    ++ (if b.val.testBit 2 then ["SC_EXTERNALIZABLE"] else [])
    ++ (if b.val.testBit 3 then ["SC_BLOCK_DATA"] else [])

/-! ## Basic facts -/

section StreamFacts
variable {U P X : Type}

theorem ReadN_ok {s t : ObjectStream U P X} {n : Nat} {bs : List Byte}
    (h : s.ReadN n = (.ok bs, t)) :
    s.current + n ≤ s.bs.length ∧ bs = (s.bs.drop s.current).take n ∧
      t = { s with current := s.current + n } := by
  unfold ObjectStream.ReadN at h
  split at h
  · rename_i hle
    simp only [Prod.mk.injEq, Except.ok.injEq] at h
    exact ⟨hle, h.1.symm, h.2.symm⟩
  · simp at h

theorem ReadN_error {s t : ObjectStream U P X} {n : Nat} {e : Error}
    (h : s.ReadN n = (.error e, t)) : s.bs.length < s.current + n ∧ t = s := by
  unfold ObjectStream.ReadN at h
  split at h
  · simp at h
  · rename_i hle
    simp only [Prod.mk.injEq] at h
    exact ⟨by omega, h.2.symm⟩

theorem ReadN_of_le (s : ObjectStream U P X) (n : Nat) (h : s.current + n ≤ s.bs.length) :
    s.ReadN n = (.ok ((s.bs.drop s.current).take n), { s with current := s.current + n }) := by
  unfold ObjectStream.ReadN
  rw [if_pos h]

theorem ReadN_of_lt (s : ObjectStream U P X) (n : Nat) (h : s.bs.length < s.current + n) :
    s.ReadN n = (.error .unexpectedEndOfStream, s) := by
  unfold ObjectStream.ReadN
  rw [if_neg (by omega)]

theorem PeekN_ok {s t : ObjectStream U P X} {n : Nat} {bs : List Byte}
    (h : s.PeekN n = (.ok bs, t)) :
    s.current + n ≤ s.bs.length ∧ bs = (s.bs.drop s.current).take n ∧ t = s := by
  unfold ObjectStream.PeekN at h
  split at h
  · rename_i hle
    simp only [Prod.mk.injEq, Except.ok.injEq] at h
    exact ⟨hle, h.1.symm, h.2.symm⟩
  · simp at h

theorem PeekN_error {s t : ObjectStream U P X} {n : Nat} {e : Error}
    (h : s.PeekN n = (.error e, t)) : s.bs.length < s.current + n ∧ t = s := by
  unfold ObjectStream.PeekN at h
  split at h
  · simp at h
  · rename_i hle
    simp only [Prod.mk.injEq] at h
    exact ⟨by omega, h.2.symm⟩

theorem take_drop_length {l : List Byte} {i n : Nat} (h : i + n ≤ l.length) :
    ((l.drop i).take n).length = n := by
  simp only [List.length_take, List.length_drop]
  omega

theorem Reads.refl (s : ObjectStream U P X) : Reads s s [] := by
  simp [Reads, consumed]

theorem Reads.trans {s t u : ObjectStream U P X} {w₁ w₂ : List Byte}
    (h₁ : Reads s t w₁) (h₂ : Reads t u w₂) : Reads s u (w₁ ++ w₂) := by
  obtain ⟨hb₁, hc₁, hw₁⟩ := h₁
  obtain ⟨hb₂, hc₂, hw₂⟩ := h₂
  refine ⟨hb₂.trans hb₁, le_trans hc₁ hc₂, ?_⟩
  subst hw₁ hw₂
  unfold consumed
  rw [hb₁]
  have e₁ : u.current - s.current = (t.current - s.current) + (u.current - t.current) := by omega
  have e₂ : List.drop t.current s.bs = List.drop (t.current - s.current) (List.drop s.current s.bs) := by
    rw [List.drop_drop]
    congr 1
    omega
  rw [e₁, List.take_add, e₂]

theorem Reads.of_ReadN {s t : ObjectStream U P X} {n : Nat} {bs : List Byte}
    (h : s.ReadN n = (.ok bs, t)) : Reads s t bs := by
  obtain ⟨_, hbs, ht⟩ := ReadN_ok h
  subst ht hbs
  simp [Reads, consumed]

theorem Reads.of_AddReference (s : ObjectStream U P X) (r : Reference U P X) :
    Reads s (s.AddReference r).2 [] := by
  simp [Reads, consumed, ObjectStream.AddReference]

theorem singleton_of_length_one {l : List Byte} (h : l.length = 1) : l = [l.headD 0] := by
  match l, h with
  | [b], _ => rfl

theorem foldl_append_flatMap {α : Type} (f : α → List Byte) (l : List α) (init : List Byte) :
    l.foldl (fun acc x => acc ++ f x) init = init ++ l.flatMap f := by
  induction l generalizing init with
  | nil => simp
  | cons x xs ih => simp [List.foldl_cons, ih, List.flatMap_cons, List.append_assoc]

end StreamFacts

/-! ## Big-endian encoding and decoding -/

theorem foldl_bigEndian (bs : List Byte) (a : Nat) :
    bs.foldl (fun acc b => acc * 256 + b.val) a = a * 256 ^ bs.length + bigEndianValue bs := by
  unfold bigEndianValue
  induction bs generalizing a with
  | nil => simp
  | cons b bs ih =>
    rw [List.foldl_cons, List.foldl_cons, ih (a * 256 + b.val), ih (0 * 256 + b.val)]
    simp only [List.length_cons, pow_succ]
    ring

theorem bigEndianValue_cons (b : Byte) (bs : List Byte) :
    bigEndianValue (b :: bs) = b.val * 256 ^ bs.length + bigEndianValue bs := by
  have h := foldl_bigEndian bs (0 * 256 + b.val)
  simp only [zero_mul, zero_add] at h
  simpa [bigEndianValue] using h

theorem bigEndianValue_lt (bs : List Byte) : bigEndianValue bs < 256 ^ bs.length := by
  induction bs with
  | nil => simp [bigEndianValue]
  | cons b bs ih =>
    rw [bigEndianValue_cons, List.length_cons, pow_succ]
    have hb : b.val < 256 := b.isLt
    nlinarith

theorem bigEndianBytes_length (w n : Nat) : (bigEndianBytes w n).length = w := by
  induction w with
  | zero => rfl
  | succ w ih => simp [bigEndianBytes, ih]

theorem bigEndianBytes_add_mul (w n k : Nat) :
    bigEndianBytes w (n + k * 256 ^ w) = bigEndianBytes w n := by
  induction w generalizing k with
  | zero => rfl
  | succ w ih =>
    have hpos : 0 < 256 ^ w := Nat.pow_pos (by decide)
    have e : n + k * 256 ^ (w + 1) = n + (k * 256) * 256 ^ w := by rw [pow_succ]; ring
    have hd : (n + (k * 256) * 256 ^ w) / 256 ^ w % 256 = n / 256 ^ w % 256 := by
      rw [Nat.add_mul_div_right _ _ hpos, Nat.add_mul_mod_self_right]
    simp only [bigEndianBytes]
    rw [e, ih (k * 256)]
    congr 1
    exact Fin.ext hd

theorem bigEndianBytes_mod (w n : Nat) :
    bigEndianBytes w (n % 256 ^ w) = bigEndianBytes w n := by
  conv_rhs => rw [← Nat.mod_add_div n (256 ^ w), Nat.mul_comm]
  rw [bigEndianBytes_add_mul]

theorem bigEndianBytes_value (bs : List Byte) :
    bigEndianBytes bs.length (bigEndianValue bs) = bs := by
  induction bs with
  | nil => rfl
  | cons b bs ih =>
    have hpos : 0 < 256 ^ bs.length := Nat.pow_pos (by decide)
    have hlt := bigEndianValue_lt bs
    have hb : b.val < 256 := b.isLt
    rw [bigEndianValue_cons, List.length_cons]
    simp only [bigEndianBytes]
    have e : b.val * 256 ^ bs.length + bigEndianValue bs
        = bigEndianValue bs + b.val * 256 ^ bs.length := by ring
    rw [e, bigEndianBytes_add_mul, ih]
    congr 1
    apply Fin.ext
    simp only
    rw [Nat.add_mul_div_right _ _ hpos, Nat.div_eq_of_lt hlt, zero_add, Nat.mod_eq_of_lt hb]

theorem NumberToBytes_uint16_Uint16 (bs : List Byte) (h : bs.length = 2) :
    NumberToBytes_uint16 (uint16OfInt (BigEndian_Uint16 bs)) = bs := by
  unfold NumberToBytes_uint16 uint16OfInt BigEndian_Uint16
  have ht : bs.take 2 = bs := List.take_of_length_le (by omega)
  rw [ht, Nat.mod_mod]
  have e : (2 : Nat) ^ 16 = 256 ^ 2 := by norm_num
  rw [e, bigEndianBytes_mod]
  have := bigEndianBytes_value bs
  rwa [h] at this

theorem int64OfUint64_mod (u : Nat) : (int64OfUint64 u % 2 ^ 64).toNat = u % 2 ^ 64 := by
  unfold int64OfUint64
  have hlt : u % 2 ^ 64 < 2 ^ 64 := Nat.mod_lt _ (by norm_num)
  split
  · have : ((u % 2 ^ 64 : Nat) : Int) % 2 ^ 64 = ((u % 2 ^ 64 : Nat) : Int) := by
      apply Int.emod_eq_of_lt <;> omega
    rw [this]
    exact Int.toNat_ofNat _
  · have : (((u % 2 ^ 64 : Nat) : Int) - 2 ^ 64) % 2 ^ 64 = ((u % 2 ^ 64 : Nat) : Int) := by
      rw [Int.sub_emod, Int.emod_self, sub_zero, Int.emod_emod_of_dvd _ (dvd_refl _)]
      apply Int.emod_eq_of_lt <;> omega
    rw [this]
    exact Int.toNat_ofNat _

theorem NumberToBytes_int64_Uint64 (bs : List Byte) (h : bs.length = 8) :
    NumberToBytes_int64 (int64OfUint64 (BigEndian_Uint64 bs)) = bs := by
  unfold NumberToBytes_int64 BigEndian_Uint64
  have ht : bs.take 8 = bs := List.take_of_length_le (by omega)
  rw [ht, int64OfUint64_mod]
  have e : (2 : Nat) ^ 64 = 256 ^ 8 := by norm_num
  rw [e, bigEndianBytes_mod]
  have := bigEndianBytes_value bs
  rwa [h] at this

/-! ## The class-descriptor reader, step by step -/

section ClassDesc
variable {U F C P D X : Type}

/-- A successful run of `readTCNormalClassDesc` went through every step
successfully, in the order of the source. -/
theorem readTCNormalClassDesc_ok_inv {E : Env U F C P D X} {fuel : Nat}
    {s t : ObjectStream U P X} {d : TCClassDesc U F C P}
    (h : readTCNormalClassDesc E fuel s = some (.ok d, t)) :
    ∃ className s1 uid s2 bs s4 fields s5 contents s6 p,
      E.readUTF (s.ReadN 1).2 = (.ok className, s1) ∧
      readSerialVersionUID s1 = (.ok uid, s2) ∧
      (s2.AddReference (Reference.classDesc className uid)).2.ReadN 1 = (.ok bs, s4) ∧
      readTCFields E s4 = (.ok fields, s5) ∧
      readTCAnnotation E fuel s5 = some (.ok contents, s6) ∧
      E.readTCClassPointer s6 = (.ok p, t) ∧
      d = { ClassName := className, SerialVersionUID := uid, ClassDescFlags := bs.headD 0,
            Fields := fields, ClassAnnotation := contents, SuperClassPointer := p,
            Handler := (s2.AddReference (Reference.classDesc className uid)).1 } := by
  unfold readTCNormalClassDesc at h
  simp only at h
  split at h
  · simp at h
  · rename_i className s1 hU
    split at h
    · simp at h
    · rename_i uid s2 hV
      split at h
      · simp at h
      · rename_i bs s4 hF
        split at h
        · simp at h
        · rename_i fields s5 hFs
          split at h
          · simp at h
          · simp at h
          · rename_i contents s6 hA
            split at h
            · simp at h
            · rename_i p s7 hP
              simp only [Option.some.injEq, Prod.mk.injEq, Except.ok.injEq] at h
              obtain ⟨hd, ht⟩ := h
              subst ht
              exact ⟨className, s1, uid, s2, bs, s4, fields, s5, contents, s6, p,
                hU, hV, hF, hFs, hA, hP, hd.symm⟩

theorem readSerialVersionUID_ok {s t : ObjectStream U P X} {uid : Int}
    (h : readSerialVersionUID s = (.ok uid, t)) :
    ∃ bs, s.ReadN 8 = (.ok bs, t) ∧ uid = int64OfUint64 (BigEndian_Uint64 bs) := by
  unfold readSerialVersionUID at h
  split at h
  · simp at h
  · rename_i bs s1 hR
    simp only [Prod.mk.injEq, Except.ok.injEq] at h
    obtain ⟨hu, ht⟩ := h
    subst ht
    exact ⟨bs, hR, hu.symm⟩

theorem readTCFields_ok {E : Env U F C P D X} {s t : ObjectStream U P X} {fields : List F}
    (h : readTCFields E s = (.ok fields, t)) :
    ∃ bs s1, s.ReadN 2 = (.ok bs, s1) ∧
      readTCFieldsLoop E (BigEndian_Uint16 bs) [] s1 = (.ok fields, t) := by
  unfold readTCFields at h
  split at h
  · simp at h
  · rename_i bs s1 hR
    exact ⟨bs, s1, hR, h⟩

theorem readTCFieldsLoop_roundtrip {E : Env U F C P D X}
    (hF : RoundTrips E.TCFieldDesc_ToBytes E.readTCField) :
    ∀ (n : Nat) (acc : List F) (s t : ObjectStream U P X) (fields : List F),
      readTCFieldsLoop E n acc s = (.ok fields, t) →
      ∃ new, fields = acc ++ new ∧ new.length = n ∧
        Reads s t (new.flatMap E.TCFieldDesc_ToBytes) := by
  intro n
  induction n with
  | zero =>
    intro acc s t fields h
    simp only [readTCFieldsLoop, Prod.mk.injEq, Except.ok.injEq] at h
    obtain ⟨h1, h2⟩ := h
    subst h1 h2
    exact ⟨[], by simp, rfl, Reads.refl s⟩
  | succ n ih =>
    intro acc s t fields h
    simp only [readTCFieldsLoop] at h
    split at h
    · simp at h
    · rename_i field s1 hR
      obtain ⟨new, hnew, hlen, hreads⟩ := ih _ _ _ _ h
      refine ⟨field :: new, by simp [hnew], by simp [hlen], ?_⟩
      have := (hF _ _ _ hR).trans hreads
      simpa [List.flatMap_cons] using this

theorem readTCAnnotationLoop_roundtrip {E : Env U F C P D X}
    (hC : RoundTrips E.TCContent_ToBytes E.readTCContent) :
    ∀ (fuel : Nat) (acc : List C) (s t : ObjectStream U P X) (contents : List C),
      readTCAnnotationLoop E fuel acc s = some (.ok contents, t) →
      ∃ new, contents = acc ++ new ∧
        Reads s t (new.flatMap E.TCContent_ToBytes ++ [JAVA_TC_ENDBLOCKDATA]) := by
  intro fuel
  induction fuel with
  | zero =>
    intro acc s t contents h
    simp [readTCAnnotationLoop] at h
  | succ fuel ih =>
    intro acc s t contents h
    simp only [readTCAnnotationLoop] at h
    split at h
    · simp at h
    · rename_i bs s1 hPeek
      obtain ⟨hle, hbs, hs1⟩ := PeekN_ok hPeek
      rw [hs1] at h
      split at h
      · rename_i hend
        simp only [Option.some.injEq, Prod.mk.injEq, Except.ok.injEq] at h
        obtain ⟨h1, h2⟩ := h
        subst h1
        refine ⟨[], by simp, ?_⟩
        have hR := ReadN_of_le s 1 hle
        have hlen : bs.length = 1 := by rw [hbs]; exact take_drop_length hle
        have hsing := singleton_of_length_one hlen
        rw [hend] at hsing
        have := Reads.of_ReadN hR
        rw [hR] at h2
        simp only at h2
        rw [h2, ← hbs, hsing] at this
        simpa using this
      · split at h
        · simp at h
        · rename_i content s2 hR
          obtain ⟨new, hnew, hreads⟩ := ih _ _ _ _ h
          refine ⟨content :: new, by simp [hnew], ?_⟩
          have := (hC _ _ _ hR).trans hreads
          simpa [List.flatMap_cons, List.append_assoc] using this

/-- The layout of an encoded class descriptor, as a single concatenation. -/
theorem ToBytes_eq_concat (E : Env U F C P D X) (d : TCClassDesc U F C P) :
    d.ToBytes E =
      [JAVA_TC_CLASSDESC] ++ E.TCUtf_ToBytes d.ClassName ++ NumberToBytes_int64 d.SerialVersionUID
        ++ [d.ClassDescFlags] ++ NumberToBytes_uint16 (uint16OfInt d.Fields.length)
        ++ d.Fields.flatMap E.TCFieldDesc_ToBytes
        ++ List.flatMap d.ClassAnnotation E.TCContent_ToBytes
        ++ [JAVA_TC_ENDBLOCKDATA] ++ E.TCClassPointer_ToBytes d.SuperClassPointer := by
  unfold TCClassDesc.ToBytes
  simp only [foldl_append_flatMap]

end ClassDesc

/-! ## The sample collaborators round-trip -/

section SampleFacts
variable {U P X α : Type}

theorem liftParser_roundTrips (toBytes : α → List Byte) (p : List Byte → Option (α × Nat))
    (hp : ∀ bs v n, p bs = some (v, n) → toBytes v = bs.take n) :
    RoundTrips toBytes (liftParser p : Reader U P X α) := by
  intro s v t h
  unfold liftParser at h
  split at h
  · rename_i v1 n hpv
    simp only [Prod.mk.injEq, Except.ok.injEq] at h
    obtain ⟨h1, h2⟩ := h
    subst h1 h2
    refine ⟨rfl, by simp, ?_⟩
    simp [consumed, hp _ _ _ hpv]
  · simp at h

theorem parseUTF_take (bs : List Byte) (v : List Byte) (n : Nat)
    (h : parseUTF bs = some (v, n)) : utfToBytes v = bs.take n := by
  match bs, h with
  | a :: b :: rest, h =>
    simp only [parseUTF] at h
    split at h
    · rename_i hle
      simp only [Option.some.injEq, Prod.mk.injEq] at h
      obtain ⟨h1, h2⟩ := h
      subst h1 h2
      have hlen : (List.take (a.val * 256 + b.val) rest).length = a.val * 256 + b.val := by
        simp [List.length_take, hle]
      have hrt := NumberToBytes_uint16_Uint16 [a, b] rfl
      have hv : BigEndian_Uint16 [a, b] = a.val * 256 + b.val := by
        simp [BigEndian_Uint16, bigEndianValue]
      have ha : a.val < 256 := a.isLt
      have hb : b.val < 256 := b.isLt
      have hu : uint16OfInt (a.val * 256 + b.val) = a.val * 256 + b.val := by
        unfold uint16OfInt
        exact Nat.mod_eq_of_lt (by omega)
      rw [hv, hu] at hrt
      unfold utfToBytes
      rw [hlen, hrt]
      simp [List.take_succ_cons]
    · simp at h

theorem parseField_take (bs : List Byte) (v : Byte × List Byte) (n : Nat)
    (h : parseField bs = some (v, n)) : fieldToBytes v = bs.take n := by
  match bs, h with
  | code :: rest, h =>
    simp only [parseField] at h
    split at h
    · rename_i name m hU
      simp only [Option.some.injEq, Prod.mk.injEq] at h
      obtain ⟨h1, h2⟩ := h
      subst h1 h2
      simp [fieldToBytes, parseUTF_take _ _ _ hU, List.take_succ_cons]
    · simp at h

theorem parseContent_take (bs : List Byte) (v : TCNull) (n : Nat)
    (h : parseContent bs = some (v, n)) : v.ToBytes = bs.take n := by
  match bs, h with
  | b :: rest, h =>
    simp only [parseContent] at h
    split at h
    · rename_i hb
      simp only [Option.some.injEq, Prod.mk.injEq] at h
      obtain ⟨_, h2⟩ := h
      subst h2
      simp [TCNull.ToBytes, hb]
    · simp at h

theorem parsePointer_take (bs : List Byte) (v : Option Nat) (n : Nat)
    (h : parsePointer bs = some (v, n)) : pointerToBytes v = bs.take n := by
  match bs, h with
  | b :: rest, h =>
    simp only [parsePointer] at h
    split at h
    · rename_i hb
      simp only [Option.some.injEq, Prod.mk.injEq] at h
      obtain ⟨h1, h2⟩ := h
      subst h1 h2
      simp [pointerToBytes, hb]
    · split at h
      · rename_i hb
        split at h
        · rename_i hle
          simp only [Option.some.injEq, Prod.mk.injEq] at h
          obtain ⟨h1, h2⟩ := h
          subst h1 h2
          have hlen : (List.take 4 rest).length = 4 := by simp [List.length_take, hle]
          have := bigEndianBytes_value (List.take 4 rest)
          rw [hlen] at this
          simp [pointerToBytes, hb, this, List.take_succ_cons]
        · simp at h
      · simp at h

theorem parseClassData_take (bs : List Byte) (v : Byte) (n : Nat)
    (h : parseClassData bs = some (v, n)) : [v] = bs.take n := by
  match bs, h with
  | b :: rest, h =>
    simp only [parseClassData, Option.some.injEq, Prod.mk.injEq] at h
    obtain ⟨h1, h2⟩ := h
    subst h1 h2
    simp

theorem sampleEnv_readUTF_roundTrips : RoundTrips sampleEnv.TCUtf_ToBytes sampleEnv.readUTF :=
  liftParser_roundTrips _ _ parseUTF_take

theorem sampleEnv_readTCField_roundTrips :
    RoundTrips sampleEnv.TCFieldDesc_ToBytes sampleEnv.readTCField :=
  liftParser_roundTrips _ _ parseField_take

theorem sampleEnv_readTCContent_roundTrips :
    RoundTrips sampleEnv.TCContent_ToBytes sampleEnv.readTCContent :=
  liftParser_roundTrips _ _ parseContent_take

theorem sampleEnv_readTCClassPointer_roundTrips :
    RoundTrips sampleEnv.TCClassPointer_ToBytes sampleEnv.readTCClassPointer :=
  liftParser_roundTrips _ _ parsePointer_take

theorem sampleEnv_readTCClassData_roundTrips
    (c : TCClassDesc (List Byte) (Byte × List Byte) TCNull (Option Nat)) :
    RoundTrips sampleEnv.TCClassData_ToBytes (sampleEnv.readTCClassData c) :=
  liftParser_roundTrips _ _ parseClassData_take

theorem sample_readTCNormalClassDesc :
    readTCNormalClassDesc sampleEnv 2 (sampleStream classDescBytes)
      = some (.ok classDescA,
          { bs := classDescBytes, current := 22,
            references := [Reference.classDesc [0x41] 1] }) := by
  rfl

end SampleFacts

/-! ## Round trip of a class descriptor -/

section RoundTrip
variable {U F C P D X : Type}

/-- C1: when the next byte of the stream is `TC_CLASSDESC` and
`readTCNormalClassDesc` succeeds, `ToBytes` of the descriptor it returns is
exactly the bytes it consumed, provided `readUTF`, `readTCField`,
`readTCContent` and `readTCClassPointer` round-trip. -/
theorem readTCNormalClassDesc_roundtrip (E : Env U F C P D X)
    (hUTF : RoundTrips E.TCUtf_ToBytes E.readUTF)
    (hField : RoundTrips E.TCFieldDesc_ToBytes E.readTCField)
    (hContent : RoundTrips E.TCContent_ToBytes E.readTCContent)
    (hPointer : RoundTrips E.TCClassPointer_ToBytes E.readTCClassPointer)
    (fuel : Nat) (s t : ObjectStream U P X) (d : TCClassDesc U F C P)
    (htag : s.bs[s.current]? = some JAVA_TC_CLASSDESC)
    (h : readTCNormalClassDesc E fuel s = some (.ok d, t)) :
    t.bs = s.bs ∧ s.current ≤ t.current ∧ d.ToBytes E = consumed s t := by
  obtain ⟨className, s1, uid, s2, bs, s4, fields, s5, contents, s6, p,
    hU, hV, hFl, hFs, hA, hP, hd⟩ := readTCNormalClassDesc_ok_inv h
  -- the tag byte
  have hlt : s.current < s.bs.length := by
    by_contra hge
    rw [List.getElem?_eq_none (by omega)] at htag
    simp at htag
  have hT := ReadN_of_le s 1 (by omega)
  have hgt : s.bs[s.current] = JAVA_TC_CLASSDESC := by
    rw [List.getElem?_eq_getElem hlt] at htag
    exact Option.some.inj htag
  have hTb : List.take 1 (List.drop s.current s.bs) = [JAVA_TC_CLASSDESC] := by
    rw [List.drop_eq_getElem_cons hlt, hgt]
    simp
  have r0 : Reads s (s.ReadN 1).2 [JAVA_TC_CLASSDESC] := by
    have := Reads.of_ReadN hT
    rw [hTb] at this
    rw [hT]
    exact this
  -- the class name
  have r1 := hUTF _ _ _ hU
  -- the version id
  obtain ⟨ubs, hUR, huid⟩ := readSerialVersionUID_ok hV
  have r2 := Reads.of_ReadN hUR
  have hulen : ubs.length = 8 := by
    obtain ⟨hle, hb, _⟩ := ReadN_ok hUR
    rw [hb]
    exact take_drop_length hle
  have r3 := Reads.of_AddReference s2 (Reference.classDesc className uid)
  -- the flag byte
  have r4 := Reads.of_ReadN hFl
  have hflen : bs.length = 1 := by
    obtain ⟨hle, hb, _⟩ := ReadN_ok hFl
    rw [hb]
    exact take_drop_length hle
  -- the fields
  obtain ⟨cbs, s4a, hCR, hLoop⟩ := readTCFields_ok hFs
  have r5 := Reads.of_ReadN hCR
  have hclen : cbs.length = 2 := by
    obtain ⟨hle, hb, _⟩ := ReadN_ok hCR
    rw [hb]
    exact take_drop_length hle
  obtain ⟨newF, hnewF, hlenF, r6⟩ := readTCFieldsLoop_roundtrip hField _ _ _ _ _ hLoop
  simp only [List.nil_append] at hnewF
  subst hnewF
  -- the annotations
  obtain ⟨newC, hnewC, r7⟩ := readTCAnnotationLoop_roundtrip hContent _ _ _ _ _ hA
  simp only [List.nil_append] at hnewC
  subst hnewC
  -- the super-class pointer
  have r8 := hPointer _ _ _ hP
  have hall := ((((((((r0.trans r1).trans r2).trans r3).trans r4).trans r5).trans r6).trans r7).trans
    r8)
  obtain ⟨hbs, hcur, hcons⟩ := hall
  refine ⟨hbs, hcur, ?_⟩
  rw [hcons, ToBytes_eq_concat, hd]
  simp only
  rw [huid, NumberToBytes_int64_Uint64 ubs hulen, hlenF, NumberToBytes_uint16_Uint16 cbs hclen,
    ← singleton_of_length_one hflen]
  simp only [List.append_assoc, List.nil_append, List.append_nil]

/-- Witness of C1: the sample class descriptor is read back from its encoding. -/
theorem readTCNormalClassDesc_roundtrip_witness :
    readTCNormalClassDesc sampleEnv 2 (sampleStream classDescBytes)
        = some (.ok classDescA,
            { bs := classDescBytes, current := 22,
              references := [Reference.classDesc [0x41] 1] }) ∧
      classDescA.ToBytes sampleEnv = classDescBytes :=
  ⟨sample_readTCNormalClassDesc,
    (readTCNormalClassDesc_roundtrip sampleEnv sampleEnv_readUTF_roundTrips
      sampleEnv_readTCField_roundTrips sampleEnv_readTCContent_roundTrips
      sampleEnv_readTCClassPointer_roundTrips 2 (sampleStream classDescBytes) _ classDescA rfl
      sample_readTCNormalClassDesc).2.2⟩

end RoundTrip

/-! ## The object reader -/

section Object
variable {U F C P D X : Type}

/-- A successful run of `readTCObject` read the class pointer, registered the
object and then either stopped (null pointer) or found the class bag and ran
the field-data loop over it. -/
theorem readTCObject_ok_inv {E : Env U F C P D X} {s t : ObjectStream U P X} {o : TCObject P D}
    (h : readTCObject E s = (.ok o, t)) :
    ∃ cp s1, E.readTCClassPointer (s.ReadN 1).2 = (.ok cp, s1) ∧
      o.ClassPointer = cp ∧ o.Handler = (s1.AddReference (Reference.object cp)).1 ∧
      ((E.TCClassPointer_Flag cp = JAVA_TC_NULL ∧ o.ClassDatas = [] ∧
          t = (s1.AddReference (Reference.object cp)).2) ∨
        (E.TCClassPointer_Flag cp ≠ JAVA_TC_NULL ∧ ∃ bag s3,
          E.FindClassBag cp (s1.AddReference (Reference.object cp)).2 = (.ok bag, s3) ∧
          readTCObjectLoop E bag.Classes bag.Classes.length [] s3 = (.ok o.ClassDatas, t))) := by
  unfold readTCObject at h
  simp only at h
  split at h
  · simp at h
  · rename_i cp s1 hP
    refine ⟨cp, s1, hP, ?_⟩
    split at h
    · rename_i hnull
      simp only [Prod.mk.injEq, Except.ok.injEq] at h
      obtain ⟨ho, ht⟩ := h
      subst ho
      exact ⟨rfl, rfl, Or.inl ⟨hnull, rfl, ht.symm⟩⟩
    · rename_i hnonnull
      split at h
      · simp at h
      · rename_i bag s3 hB
        split at h
        · simp at h
        · rename_i datas s4 hL
          simp only [Prod.mk.injEq, Except.ok.injEq] at h
          obtain ⟨ho, ht⟩ := h
          subst ho ht
          exact ⟨rfl, rfl, Or.inr ⟨hnonnull, bag, s3, hB, hL⟩⟩

theorem readTCObjectLoop_roundtrip {E : Env U F C P D X}
    (hD : ∀ c, RoundTrips E.TCClassData_ToBytes (E.readTCClassData c))
    (classes : List (TCClassDesc U F C P)) :
    ∀ (i : Nat) (acc : List D) (s t : ObjectStream U P X) (datas : List D),
      readTCObjectLoop E classes i acc s = (.ok datas, t) →
      ∃ new, datas = acc ++ new ∧ Reads s t (new.flatMap E.TCClassData_ToBytes) := by
  intro i
  induction i with
  | zero =>
    intro acc s t datas h
    simp only [readTCObjectLoop, Prod.mk.injEq, Except.ok.injEq] at h
    obtain ⟨h1, h2⟩ := h
    subst h1 h2
    exact ⟨[], by simp, Reads.refl s⟩
  | succ i ih =>
    intro acc s t datas h
    simp only [readTCObjectLoop] at h
    split at h
    · simp at h
    · rename_i c hc
      split at h
      · simp at h
      · rename_i classData s1 hR
        obtain ⟨new, hnew, hreads⟩ := ih _ _ _ _ h
        refine ⟨classData :: new, by simp [hnew], ?_⟩
        have := (hD c _ _ _ hR).trans hreads
        simpa [List.flatMap_cons] using this

/-- The trace of the field-data loop: the states it went through, one block
per step, the block of step `j` read with the class at index `i - 1 - j`. -/
theorem readTCObjectLoop_trace {E : Env U F C P D X} (classes : List (TCClassDesc U F C P)) :
    ∀ (i : Nat) (acc : List D) (s t : ObjectStream U P X) (datas : List D),
      readTCObjectLoop E classes i acc s = (.ok datas, t) →
      ∃ (new : List D) (states : List (ObjectStream U P X)),
        datas = acc ++ new ∧ new.length = i ∧ states.length = i + 1 ∧
        states[0]? = some s ∧ states[i]? = some t ∧
        ∀ j, j < i → ∃ c d u v, classes[i - 1 - j]? = some c ∧ new[j]? = some d ∧
          states[j]? = some u ∧ states[j + 1]? = some v ∧ E.readTCClassData c u = (.ok d, v) := by
  intro i
  induction i with
  | zero =>
    intro acc s t datas h
    simp only [readTCObjectLoop, Prod.mk.injEq, Except.ok.injEq] at h
    obtain ⟨h1, h2⟩ := h
    subst h1 h2
    exact ⟨[], [s], by simp, rfl, rfl, rfl, rfl, fun j hj => absurd hj (Nat.not_lt_zero j)⟩
  | succ i ih =>
    intro acc s t datas h
    simp only [readTCObjectLoop] at h
    split at h
    · simp at h
    · rename_i c hc
      split at h
      · simp at h
      · rename_i classData s1 hR
        obtain ⟨new, states, hnew, hlen, hslen, hs0, hsi, hall⟩ := ih _ _ _ _ h
        refine ⟨classData :: new, s :: states, by simp [hnew], by simp [hlen], by simp [hslen],
          by simp, by simpa using hsi, ?_⟩
        intro j hj
        cases j with
        | zero =>
          refine ⟨c, classData, s, s1, by simpa using hc, by simp, by simp, by simpa using hs0, hR⟩
        | succ j =>
          obtain ⟨c1, d1, u, v, h1, h2, h3, h4, h5⟩ := hall j (by omega)
          refine ⟨c1, d1, u, v, ?_, by simpa using h2, by simpa using h3, by simpa using h4, h5⟩
          have e : i + 1 - 1 - (j + 1) = i - 1 - j := by omega
          rw [e]
          exact h1

/-- C2: when the next byte of the stream is `TC_OBJECT` and `readTCObject`
succeeds, `ToBytes` of the object it returns is exactly the bytes it consumed:
the tag, the class pointer's bytes, then the field-data blocks in the order
they are stored; provided `readTCClassPointer` and `readTCClassData`
round-trip and `FindClassBag` consumes no bytes. -/
theorem readTCObject_roundtrip (E : Env U F C P D X)
    (hPointer : RoundTrips E.TCClassPointer_ToBytes E.readTCClassPointer)
    (hData : ∀ c, RoundTrips E.TCClassData_ToBytes (E.readTCClassData c))
    (hBag : ∀ p s bag t, E.FindClassBag p s = (.ok bag, t) → t.bs = s.bs ∧ t.current = s.current)
    (s t : ObjectStream U P X) (o : TCObject P D)
    (htag : s.bs[s.current]? = some JAVA_TC_OBJECT)
    (h : readTCObject E s = (.ok o, t)) :
    t.bs = s.bs ∧ s.current ≤ t.current ∧ o.ToBytes E = consumed s t ∧
      consumed s t = [JAVA_TC_OBJECT] ++ E.TCClassPointer_ToBytes o.ClassPointer
        ++ o.ClassDatas.flatMap E.TCClassData_ToBytes := by
  obtain ⟨cp, s1, hP, hcp, _, hrest⟩ := readTCObject_ok_inv h
  have hlt : s.current < s.bs.length := by
    by_contra hge
    rw [List.getElem?_eq_none (by omega)] at htag
    simp at htag
  have hT := ReadN_of_le s 1 (by omega)
  have hgt : s.bs[s.current] = JAVA_TC_OBJECT := by
    rw [List.getElem?_eq_getElem hlt] at htag
    exact Option.some.inj htag
  have hTb : List.take 1 (List.drop s.current s.bs) = [JAVA_TC_OBJECT] := by
    rw [List.drop_eq_getElem_cons hlt, hgt]
    simp
  have r0 : Reads s (s.ReadN 1).2 [JAVA_TC_OBJECT] := by
    have := Reads.of_ReadN hT
    rw [hTb] at this
    rw [hT]
    exact this
  have r1 := hPointer _ _ _ hP
  have r2 := Reads.of_AddReference s1 (Reference.object cp)
  have hto : o.ToBytes E = [JAVA_TC_OBJECT] ++ E.TCClassPointer_ToBytes o.ClassPointer
      ++ o.ClassDatas.flatMap E.TCClassData_ToBytes := by
    unfold TCObject.ToBytes
    simp only [foldl_append_flatMap]
  rcases hrest with ⟨_, hnil, ht⟩ | ⟨_, bag, s3, hB, hL⟩
  · have hall := (r0.trans r1).trans r2
    rw [← ht] at hall
    obtain ⟨hbs, hcur, hcons⟩ := hall
    rw [hto, hcons, hnil, hcp]
    simp
    exact ⟨hbs, hcur⟩
  · obtain ⟨hb3, hc3⟩ := hBag _ _ _ _ hB
    have r3 : Reads (s1.AddReference (Reference.object cp)).2 s3 [] := by
      refine ⟨hb3, le_of_eq hc3.symm, ?_⟩
      simp [consumed, hc3]
    obtain ⟨new, hnew, r4⟩ := readTCObjectLoop_roundtrip hData _ _ _ _ _ _ hL
    simp only [List.nil_append] at hnew
    have hall := (((r0.trans r1).trans r2).trans r3).trans r4
    obtain ⟨hbs, hcur, hcons⟩ := hall
    rw [hto, hcons, hnew, hcp]
    simp
    exact ⟨hbs, hcur⟩

theorem sample_readTCObject :
    readTCObject sampleEnv objectStream
      = (.ok objectL, { objectStream with current := 9,
                                          references := threeClasses ++ [Reference.object (some 0x7E0002)] }) := by
  rfl

theorem sampleEnv_FindClassBag_reads_nothing (p : Option Nat)
    (s : ObjectStream (List Byte) (Option Nat) Unit)
    (bag : ClassBag (List Byte) (Byte × List Byte) TCNull (Option Nat))
    (t : ObjectStream (List Byte) (Option Nat) Unit)
    (h : sampleEnv.FindClassBag p s = (.ok bag, t)) : t.bs = s.bs ∧ t.current = s.current := by
  have h1 : sampleFindClassBag p s = (.ok bag, t) := h
  unfold sampleFindClassBag at h1
  split at h1
  · simp only [Prod.mk.injEq] at h1
    rw [← h1.2]
    exact ⟨rfl, rfl⟩
  · split at h1
    · simp only [Prod.mk.injEq] at h1
      rw [← h1.2]
      exact ⟨rfl, rfl⟩
    · simp at h1

/-- Witness of C2: the sample object is read back from its encoding. -/
theorem readTCObject_roundtrip_witness :
    objectL.ToBytes sampleEnv = objectStream.bs ∧
      objectStream.bs = [JAVA_TC_OBJECT] ++ pointerToBytes (some 0x7E0002) ++ [0xAA, 0xBB, 0xCC] :=
  have h := readTCObject_roundtrip sampleEnv sampleEnv_readTCClassPointer_roundTrips
    sampleEnv_readTCClassData_roundTrips sampleEnv_FindClassBag_reads_nothing objectStream _ objectL
    rfl sample_readTCObject
  ⟨h.2.2.1, h.2.2.2⟩

/-- C3: when `readTCObject` succeeds with a non-null class pointer whose class
bag is `bag`, the object holds exactly as many field-data blocks as the bag has
classes, and block `i` is the one decoded with the class at index
`len - 1 - i` of the bag; the blocks are read from the stream one after the
other in that order, from the state `FindClassBag` left to the final state. -/
theorem readTCObject_blocks_ancestor_first (E : Env U F C P D X)
    (s t s1 s3 : ObjectStream U P X) (o : TCObject P D) (cp : P) (bag : ClassBag U F C P)
    (hcp : E.readTCClassPointer (s.ReadN 1).2 = (.ok cp, s1))
    (hflag : E.TCClassPointer_Flag cp ≠ JAVA_TC_NULL)
    (hbag : E.FindClassBag cp (s1.AddReference (Reference.object cp)).2 = (.ok bag, s3))
    (h : readTCObject E s = (.ok o, t)) :
    o.ClassDatas.length = bag.Classes.length ∧
      ∃ states : List (ObjectStream U P X),
        states.length = bag.Classes.length + 1 ∧ states[0]? = some s3 ∧
        states[bag.Classes.length]? = some t ∧
        ∀ i, i < bag.Classes.length → ∃ c d u v,
          bag.Classes[bag.Classes.length - 1 - i]? = some c ∧ o.ClassDatas[i]? = some d ∧
          states[i]? = some u ∧ states[i + 1]? = some v ∧
          E.readTCClassData c u = (.ok d, v) := by
  obtain ⟨cp1, s1a, hP, _, _, hrest⟩ := readTCObject_ok_inv h
  rw [hcp] at hP
  simp only [Prod.mk.injEq, Except.ok.injEq] at hP
  obtain ⟨e1, e2⟩ := hP
  subst e1 e2
  rcases hrest with ⟨hnull, _, _⟩ | ⟨_, bag1, s3a, hB, hL⟩
  · exact absurd hnull hflag
  · rw [hbag] at hB
    simp only [Prod.mk.injEq, Except.ok.injEq] at hB
    obtain ⟨e1, e2⟩ := hB
    subst e1 e2
    obtain ⟨new, states, hnew, hlen, hslen, hs0, hsi, hall⟩ :=
      readTCObjectLoop_trace bag.Classes _ _ _ _ _ hL
    simp only [List.nil_append] at hnew
    subst hnew
    exact ⟨hlen, states, hslen, hs0, hsi, hall⟩

/-- Witness of C3: the object of class `L`, whose bag is `L`, `M`, `R`, holds
three blocks. -/
theorem readTCObject_blocks_ancestor_first_witness :
    objectL.ClassDatas.length = bagL.Classes.length ∧
      ∃ states : List (ObjectStream (List Byte) (Option Nat) Unit),
        states.length = bagL.Classes.length + 1 ∧
        states[0]? = some { objectStream with
          current := 6, references := threeClasses ++ [Reference.object (some 0x7E0002)] } ∧
        states[bagL.Classes.length]? = some { objectStream with
          current := 9, references := threeClasses ++ [Reference.object (some 0x7E0002)] } ∧
        ∀ i, i < bagL.Classes.length → ∃ c d u v,
          bagL.Classes[bagL.Classes.length - 1 - i]? = some c ∧ objectL.ClassDatas[i]? = some d ∧
          states[i]? = some u ∧ states[i + 1]? = some v ∧
          sampleEnv.readTCClassData c u = (.ok d, v) :=
  readTCObject_blocks_ancestor_first sampleEnv objectStream _ _ _ objectL (some 0x7E0002) bagL
    rfl (by decide) rfl sample_readTCObject

theorem sampleEnv_readsNullPointer : ReadsNullPointer sampleEnv := by
  intro s hs
  have hlt : s.current < s.bs.length := by
    by_contra hge
    rw [List.getElem?_eq_none (by omega)] at hs
    simp at hs
  have hgt : s.bs[s.current] = JAVA_TC_NULL := by
    rw [List.getElem?_eq_getElem hlt] at hs
    exact Option.some.inj hs
  refine ⟨none, ?_, rfl⟩
  show liftParser parsePointer s = _
  unfold liftParser
  rw [List.drop_eq_getElem_cons hlt, hgt]
  simp [parsePointer]

/-- C4: on every stream that starts with the `TC_OBJECT` tag followed by the
`TC_NULL` byte, `readTCObject` succeeds, the object has no field-data block,
and the position advances by exactly 2, whatever bytes follow; given that
`readTCClassPointer` reads a null pointer from the `TC_NULL` byte. -/
theorem readTCObject_null_short_circuit (E : Env U F C P D X) (hnull : ReadsNullPointer E)
    (s : ObjectStream U P X)
    (h0 : s.bs[s.current]? = some JAVA_TC_OBJECT)
    (h1 : s.bs[s.current + 1]? = some JAVA_TC_NULL) :
    ∃ o t, readTCObject E s = (.ok o, t) ∧ o.ClassDatas = [] ∧
      E.TCClassPointer_Flag o.ClassPointer = JAVA_TC_NULL ∧
      t.bs = s.bs ∧ t.current = s.current + 2 := by
  have hlt : s.current < s.bs.length := by
    by_contra hge
    rw [List.getElem?_eq_none (by omega)] at h0
    simp at h0
  have hT := ReadN_of_le s 1 (by omega)
  obtain ⟨p, hp, hflag⟩ := hnull { s with current := s.current + 1 } h1
  have hp2 : E.readTCClassPointer (s.ReadN 1).2
      = (.ok p, { bs := s.bs, current := s.current + 1 + 1, references := s.references }) := by
    rw [hT]
    exact hp
  refine ⟨{ ClassPointer := p, ClassDatas := [],
            Handler := (JAVA_BASE_WIRE_HANDLE + s.references.length) % 2 ^ 32 },
    { bs := s.bs, current := s.current + 2,
      references := s.references ++ [Reference.object p] }, ?_, rfl, hflag, rfl, rfl⟩
  unfold readTCObject
  simp only [hp2, hflag, ObjectStream.AddReference, if_true]

/-- Witness of C4: an object with a null class pointer, followed by two more
bytes that are left unread. -/
theorem readTCObject_null_short_circuit_witness :
    ∃ o t, readTCObject sampleEnv (sampleStream [0x73, 0x70, 0xAA, 0x78]) = (.ok o, t) ∧
      o.ClassDatas = [] ∧ sampleEnv.TCClassPointer_Flag o.ClassPointer = JAVA_TC_NULL ∧
      t.bs = [0x73, 0x70, 0xAA, 0x78] ∧ t.current = 0 + 2 :=
  readTCObject_null_short_circuit sampleEnv sampleEnv_readsNullPointer
    (sampleStream [0x73, 0x70, 0xAA, 0x78]) (by decide) (by decide)

end Object

/-! ## Read errors -/

section ReadErrors
variable {U F C P D X : Type}

theorem readTCAnnotationLoop_ok_peek {E : Env U F C P D X} {fuel : Nat} {acc contents : List C}
    {s t : ObjectStream U P X}
    (h : readTCAnnotationLoop E fuel acc s = some (.ok contents, t)) :
    ∃ bs, s.PeekN 1 = (.ok bs, s) := by
  cases fuel with
  | zero => simp [readTCAnnotationLoop] at h
  | succ fuel =>
    simp only [readTCAnnotationLoop] at h
    split at h
    · simp at h
    · rename_i bs s1 hPeek
      obtain ⟨_, _, hs1⟩ := PeekN_ok hPeek
      rw [hs1] at hPeek
      exact ⟨bs, hPeek⟩

/-- Counterexample to C5: on the empty stream the one read of `readTCNull`
fails, and `readTCNull` still yields a Null value (it has no error result). -/
theorem readTCNull_yields_value_on_empty_stream :
    ((sampleStream []).ReadN 1).1 = .error .unexpectedEndOfStream ∧
      readTCNull (sampleStream []) = (TCNull.mk, sampleStream []) :=
  ⟨rfl, rfl⟩

/-- C5, amended: a successful `readTCNormalClassDesc` performed every one of
its stream reads successfully (the tag byte, the version id, the flag byte,
the field count, the first peek of the annotation loop), and so did a
successful `readTCObject` (its tag byte); the error of the tag-byte read is
itself discarded, and the failure then comes from the next read, given that
`readUTF` keeps the buffer and `readTCClassPointer` fails at the end of the
stream. `readTCNull` discards the error of its only read and yields a Null
value on every stream. -/
theorem successful_decode_performed_all_reads (E : Env U F C P D X)
    (hUTF : KeepsBuffer E.readUTF) (hPtr : FailsAtEnd E.readTCClassPointer) :
    (∀ fuel (s t : ObjectStream U P X) d, readTCNormalClassDesc E fuel s = some (.ok d, t) →
      ∃ tag s0 name s1 ubs s2 fl s4 cbs s4a fields s5 pk,
        s.ReadN 1 = (.ok tag, s0) ∧ E.readUTF s0 = (.ok name, s1) ∧
        s1.ReadN 8 = (.ok ubs, s2) ∧
        (s2.AddReference (Reference.classDesc name (int64OfUint64 (BigEndian_Uint64 ubs)))).2.ReadN 1
          = (.ok fl, s4) ∧
        s4.ReadN 2 = (.ok cbs, s4a) ∧
        readTCFieldsLoop E (BigEndian_Uint16 cbs) [] s4a = (.ok fields, s5) ∧
        s5.PeekN 1 = (.ok pk, s5)) ∧
    (∀ fuel acc contents (s t : ObjectStream U P X),
      readTCAnnotationLoop E fuel acc s = some (.ok contents, t) → ∃ pk, s.PeekN 1 = (.ok pk, s)) ∧
    (∀ (s t : ObjectStream U P X) o, readTCObject E s = (.ok o, t) →
      ∃ tag s0 cp s1, s.ReadN 1 = (.ok tag, s0) ∧ E.readTCClassPointer s0 = (.ok cp, s1)) ∧
    (∀ s : ObjectStream U P X, readTCNull s = (TCNull.mk, (s.ReadN 1).2)) := by
  refine ⟨?_, ?_, ?_, fun s => rfl⟩
  · intro fuel s t d h
    obtain ⟨name, s1, uid, s2, fl, s4, fields, s5, contents, s6, p,
      hU, hV, hFl, hFs, hA, hP, hd⟩ := readTCNormalClassDesc_ok_inv h
    obtain ⟨ubs, hUR, huid⟩ := readSerialVersionUID_ok hV
    obtain ⟨cbs, s4a, hCR, hLoop⟩ := readTCFields_ok hFs
    obtain ⟨pk, hpk⟩ := readTCAnnotationLoop_ok_peek hA
    have hlt : s.current + 1 ≤ s.bs.length := by
      by_contra hge
      have hT := ReadN_of_lt s 1 (by omega)
      rw [hT] at hU
      obtain ⟨hb, hc⟩ := hUTF _ _ _ hU
      obtain ⟨hle, _, _⟩ := ReadN_ok hUR
      rw [hb] at hle
      simp only at hle hc
      omega
    have hT := ReadN_of_le s 1 hlt
    rw [hT] at hU
    subst huid
    exact ⟨_, _, name, s1, ubs, s2, fl, s4, cbs, s4a, fields, s5, pk, hT, hU, hUR, hFl, hCR, hLoop,
      hpk⟩
  · intro fuel acc contents s t h
    exact readTCAnnotationLoop_ok_peek h
  · intro s t o h
    obtain ⟨cp, s1, hP, _⟩ := readTCObject_ok_inv h
    have hlt : s.current + 1 ≤ s.bs.length := by
      by_contra hge
      have hT := ReadN_of_lt s 1 (by omega)
      rw [hT] at hP
      obtain ⟨e, t1, he⟩ := hPtr s (by omega)
      rw [he] at hP
      simp at hP
    have hT := ReadN_of_le s 1 hlt
    rw [hT] at hP
    exact ⟨_, _, cp, s1, hT, hP⟩

theorem liftParser_keepsBuffer {α : Type} (p : List Byte → Option (α × Nat)) :
    KeepsBuffer (liftParser p : Reader U P X α) := by
  intro s v t h
  unfold liftParser at h
  split at h
  · simp only [Prod.mk.injEq, Except.ok.injEq] at h
    rw [← h.2]
    exact ⟨rfl, by simp⟩
  · simp at h

theorem liftParser_failsAtEnd {α : Type} (p : List Byte → Option (α × Nat)) (hp : p [] = none) :
    FailsAtEnd (liftParser p : Reader U P X α) := by
  intro s hs
  unfold liftParser
  rw [List.drop_eq_nil_of_le hs, hp]
  exact ⟨_, _, rfl⟩

/-- Witness of C5 (amended): the reads of the sample class descriptor's
decode. -/
theorem successful_decode_performed_all_reads_witness :
    ∃ tag s0 name s1 ubs s2 fl s4 cbs s4a fields s5 pk,
      (sampleStream classDescBytes).ReadN 1 = (.ok tag, s0) ∧
      sampleEnv.readUTF s0 = (.ok name, s1) ∧ s1.ReadN 8 = (.ok ubs, s2) ∧
      (s2.AddReference (Reference.classDesc name (int64OfUint64 (BigEndian_Uint64 ubs)))).2.ReadN 1
        = (.ok fl, s4) ∧
      s4.ReadN 2 = (.ok cbs, s4a) ∧
      readTCFieldsLoop sampleEnv (BigEndian_Uint16 cbs) [] s4a = (.ok fields, s5) ∧
      s5.PeekN 1 = (.ok pk, s5) :=
  (successful_decode_performed_all_reads sampleEnv (liftParser_keepsBuffer parseUTF)
    (liftParser_failsAtEnd parsePointer rfl)).1 2 (sampleStream classDescBytes) _ classDescA
    sample_readTCNormalClassDesc

end ReadErrors

/-! ## Prefix-determined readers -/

section PrefixDeterminedFacts
variable {U F C P D X α β : Type}

theorem remaining_advance (s : ObjectStream U P X) (n : Nat) (refs : List (Reference U P X)) :
    (s.advance n refs).remaining = s.remaining.drop n := by
  simp [ObjectStream.remaining, ObjectStream.advance, List.drop_drop]

theorem consumed_prefix_remaining (s t : ObjectStream U P X) : consumed s t <+: s.remaining :=
  List.take_prefix _ _

theorem PrefixDetermined.andThen {r : BoundedReader U P X α} {f : α → BoundedReader U P X β}
    (hr : PrefixDetermined r) (hf : ∀ a, PrefixDetermined (f a)) :
    PrefixDetermined (r.andThen f) := by
  intro s v t h
  unfold BoundedReader.andThen at h
  split at h
  · simp at h
  · simp at h
  · rename_i a m hrs
    obtain ⟨hb1, hc1, hl1, htr1⟩ := hr s a m hrs
    obtain ⟨hb2, hc2, hl2, htr2⟩ := hf a m v t h
    have happ : consumed s t = consumed s m ++ consumed m t :=
      (Reads.trans ⟨hb1, hc1, rfl⟩ ⟨hb2, hc2, rfl⟩).2.2
    refine ⟨hb2.trans hb1, le_trans hc1 hc2, ?_, ?_⟩
    · rw [happ, List.length_append, hl1, hl2]
      omega
    · intro s' href
      obtain ⟨h1a, h1b⟩ := htr1 s' href
      obtain ⟨h2a, h2b⟩ := htr2 (s'.advance (m.current - s.current) m.references) rfl
      have hrem : (s'.advance (m.current - s.current) m.references).remaining
          = s'.remaining.drop (consumed s m).length := by
        rw [hl1]
        exact remaining_advance s' (m.current - s.current) m.references
      constructor
      · intro hpre
        rw [happ] at hpre
        have hp1 : consumed s m <+: s'.remaining := (List.prefix_append _ _).trans hpre
        have hrs' := h1a hp1
        have hp2 : consumed m t <+: s'.remaining.drop (consumed s m).length := by
          have := hpre.drop (consumed s m).length
          rwa [List.drop_left] at this
        rw [← hrem] at hp2
        have h2 := h2a hp2
        unfold BoundedReader.andThen
        rw [hrs']
        simp only
        rw [h2]
        have e : s'.current + (m.current - s.current) + (t.current - m.current)
            = s'.current + (t.current - s.current) := by omega
        simp only [ObjectStream.advance, e]
      · intro hpre hne
        rw [happ] at hpre hne
        by_cases hlen : s'.remaining.length < (consumed s m).length
        · have hp1 : s'.remaining <+: consumed s m :=
            List.prefix_of_prefix_length_le hpre (List.prefix_append _ _) (le_of_lt hlen)
          have hne1 : s'.remaining ≠ consumed s m := by
            intro e
            rw [e] at hlen
            omega
          obtain ⟨e, t', he⟩ := h1b hp1 hne1
          refine ⟨e, t', ?_⟩
          unfold BoundedReader.andThen
          rw [he]
        · have hp1 : consumed s m <+: s'.remaining :=
            List.prefix_of_prefix_length_le (List.prefix_append _ _) hpre (by omega)
          have hrs' := h1a hp1
          have hp2 : s'.remaining.drop (consumed s m).length <+: consumed m t := by
            have := hpre.drop (consumed s m).length
            rwa [List.drop_left] at this
          have hne2 : s'.remaining.drop (consumed s m).length ≠ consumed m t := by
            intro e
            apply hne
            have := List.prefix_iff_eq_append.mp hp1
            rw [← this, e]
          rw [← hrem] at hp2 hne2
          obtain ⟨e, t', he⟩ := h2b hp2 hne2
          refine ⟨e, t', ?_⟩
          unfold BoundedReader.andThen
          rw [hrs']
          exact he

theorem PrefixDetermined.pure_ok (v : α) :
    PrefixDetermined (fun s => some (.ok v, s) : BoundedReader U P X α) := by
  intro s v1 t h
  simp only [Option.some.injEq, Prod.mk.injEq, Except.ok.injEq] at h
  obtain ⟨h1, h2⟩ := h
  subst h1 h2
  refine ⟨rfl, le_refl _, by simp [consumed], ?_⟩
  intro s' href
  constructor
  · intro _
    simp only [ObjectStream.advance, Nat.sub_self, Nat.add_zero, ← href]
  · intro hpre hne
    simp only [consumed, Nat.sub_self, List.take_zero, List.prefix_nil] at hpre hne
    exact absurd hpre hne

theorem PrefixDetermined.addReferenceStep (r : Reference U P X) :
    PrefixDetermined (addReferenceStep r : BoundedReader U P X Nat) := by
  intro s v t h
  simp only [ZKAR.addReferenceStep, ObjectStream.AddReference, Option.some.injEq, Prod.mk.injEq,
    Except.ok.injEq] at h
  obtain ⟨h1, h2⟩ := h
  subst h1 h2
  refine ⟨rfl, le_refl _, by simp [consumed], ?_⟩
  intro s' href
  constructor
  · intro _
    simp [ZKAR.addReferenceStep, ObjectStream.AddReference, ObjectStream.advance, href]
  · intro hpre hne
    simp only [consumed, Nat.sub_self, List.take_zero, List.prefix_nil] at hpre hne
    exact absurd hpre hne

theorem PrefixDetermined.readNStep (n : Nat) (hn : 0 < n) (g : List Byte → β) (err : Nat → Error) :
    PrefixDetermined (readNStep n g err : BoundedReader U P X β) := by
  intro s v t h
  unfold ZKAR.readNStep at h
  split at h
  · simp at h
  · rename_i bs s1 hR
    obtain ⟨hle, hbs, hs1⟩ := ReadN_ok hR
    simp only [Option.some.injEq, Prod.mk.injEq, Except.ok.injEq] at h
    obtain ⟨hv, ht⟩ := h
    subst hv ht hs1
    have hcons : consumed s { s with current := s.current + n } = bs := by
      simp [consumed, hbs]
    have hlen : bs.length = n := by
      rw [hbs]
      exact take_drop_length hle
    refine ⟨rfl, by simp, by rw [hcons, hlen]; simp, ?_⟩
    intro s' href
    rw [hcons]
    constructor
    · intro hpre
      have hl := hpre.length_le
      rw [hlen] at hl
      have hle' : s'.current + n ≤ s'.bs.length := by
        simp only [ObjectStream.remaining, List.length_drop] at hl
        omega
      have hbs' : List.take n (List.drop s'.current s'.bs) = bs := by
        have := List.prefix_iff_eq_take.mp hpre
        rw [hlen] at this
        exact this.symm
      unfold ZKAR.readNStep
      rw [ReadN_of_le s' n hle', hbs']
      simp [ObjectStream.advance, href]
    · intro hpre hne
      have hl : s'.remaining.length < n := by
        by_contra hge
        apply hne
        exact hpre.eq_of_length_le (by rw [hlen]; omega)
      have hlt : s'.bs.length < s'.current + n := by
        simp only [ObjectStream.remaining, List.length_drop] at hl
        omega
      unfold ZKAR.readNStep
      rw [ReadN_of_lt s' n hlt]
      exact ⟨_, _, rfl⟩

theorem PrefixDetermined.keepsBuffer {r : Reader U P X α} (h : PrefixDetermined (boundedOf r)) :
    KeepsBuffer r := by
  intro s v t hr
  have := h s v t (by unfold boundedOf; rw [hr])
  exact ⟨this.1, this.2.1⟩

theorem boundedOf_readSerialVersionUID :
    (boundedOf readSerialVersionUID : BoundedReader U P X Int)
      = readNStep 8 (fun bs => int64OfUint64 (BigEndian_Uint64 bs))
          (Error.errorf "read SerialVersionUID failed on index %v") := by
  funext s
  unfold boundedOf readSerialVersionUID readNStep
  split <;> rfl

theorem PrefixDetermined.readSerialVersionUID :
    PrefixDetermined (boundedOf readSerialVersionUID : BoundedReader U P X Int) := by
  rw [boundedOf_readSerialVersionUID]
  exact PrefixDetermined.readNStep 8 (by decide) _ _

theorem PrefixDetermined.readTCFieldsLoop {E : Env U F C P D X}
    (hF : PrefixDetermined (boundedOf E.readTCField)) :
    ∀ (n : Nat) (acc : List F), PrefixDetermined (boundedOf (readTCFieldsLoop E n acc)) := by
  intro n
  induction n with
  | zero =>
    intro acc
    exact PrefixDetermined.pure_ok acc
  | succ n ih =>
    intro acc
    have e : boundedOf (ZKAR.readTCFieldsLoop E (n + 1) acc)
        = (boundedOf E.readTCField).andThen fun field =>
            boundedOf (ZKAR.readTCFieldsLoop E n (acc ++ [field])) := by
      funext s
      simp only [boundedOf, BoundedReader.andThen, ZKAR.readTCFieldsLoop]
      split <;> simp_all
    rw [e]
    exact hF.andThen fun field => ih (acc ++ [field])

theorem boundedOf_readTCFields (E : Env U F C P D X) :
    boundedOf (readTCFields E)
      = (readNStep 2 BigEndian_Uint16
          (Error.errorf "read JAVA_TC_CLASSDESC failed on index %v")).andThen fun n =>
            boundedOf (readTCFieldsLoop E n []) := by
  funext s
  simp only [boundedOf, BoundedReader.andThen, readTCFields, readNStep]
  split <;> simp_all

theorem PrefixDetermined.readTCFields {E : Env U F C P D X}
    (hF : PrefixDetermined (boundedOf E.readTCField)) :
    PrefixDetermined (boundedOf (readTCFields E)) := by
  rw [boundedOf_readTCFields]
  exact (PrefixDetermined.readNStep 2 (by decide) _ _).andThen fun n =>
    PrefixDetermined.readTCFieldsLoop hF n []

/-! ### The annotation loop -/

theorem PeekN_of_remaining_cons {s : ObjectStream U P X} {b : Byte} {rest : List Byte}
    (h : s.remaining = b :: rest) : s.PeekN 1 = (.ok [b], s) := by
  unfold ObjectStream.remaining at h
  have hle : s.current + 1 ≤ s.bs.length := by
    have := congrArg List.length h
    simp only [List.length_drop, List.length_cons] at this
    omega
  unfold ObjectStream.PeekN
  rw [if_pos hle, h]
  simp

theorem ReadN_one_of_remaining_cons {s : ObjectStream U P X} {b : Byte} {rest : List Byte}
    (h : s.remaining = b :: rest) : s.ReadN 1 = (.ok [b], s.advance 1 s.references) := by
  unfold ObjectStream.remaining at h
  have hle : s.current + 1 ≤ s.bs.length := by
    have := congrArg List.length h
    simp only [List.length_drop, List.length_cons] at this
    omega
  rw [ReadN_of_le s 1 hle, h]
  simp [ObjectStream.advance]

theorem PeekN_of_remaining_nil {s : ObjectStream U P X} (h : s.remaining = []) :
    s.PeekN 1 = (.error .unexpectedEndOfStream, s) := by
  unfold ObjectStream.remaining at h
  have hlt : ¬ s.current + 1 ≤ s.bs.length := by
    have := congrArg List.length h
    simp only [List.length_drop, List.length_nil] at this
    omega
  unfold ObjectStream.PeekN
  rw [if_neg hlt]

theorem ReadN_one_of_remaining_nil {s : ObjectStream U P X} (h : s.remaining = []) :
    s.ReadN 1 = (.error .unexpectedEndOfStream, s) := by
  unfold ObjectStream.remaining at h
  have hlt : s.bs.length < s.current + 1 := by
    have := congrArg List.length h
    simp only [List.length_drop, List.length_nil] at this
    omega
  exact ReadN_of_lt s 1 hlt

theorem readTCAnnotationLoop_nil (E : Env U F C P D X) (fuel : Nat) (acc : List C)
    {s : ObjectStream U P X} (h : s.remaining = []) :
    readTCAnnotationLoop E (fuel + 1) acc s
      = some (.error (.errorf "read classAnnotation failed on index %v" s.CurrentIndex), s) := by
  simp only [readTCAnnotationLoop, PeekN_of_remaining_nil h]

theorem readTCAnnotationLoop_end (E : Env U F C P D X) (fuel : Nat) (acc : List C)
    {s : ObjectStream U P X} {rest : List Byte} (h : s.remaining = JAVA_TC_ENDBLOCKDATA :: rest) :
    readTCAnnotationLoop E (fuel + 1) acc s = some (.ok acc, s.advance 1 s.references) := by
  simp only [readTCAnnotationLoop, PeekN_of_remaining_cons h, ReadN_one_of_remaining_cons h,
    List.headD_cons, if_true]

theorem readTCAnnotationLoop_content (E : Env U F C P D X) (fuel : Nat) (acc : List C)
    {s : ObjectStream U P X} {b : Byte} {rest : List Byte} (h : s.remaining = b :: rest)
    (hb : b ≠ JAVA_TC_ENDBLOCKDATA) :
    readTCAnnotationLoop E (fuel + 1) acc s
      = ((boundedOf E.readTCContent).andThen fun content =>
          readTCAnnotationLoop E fuel (acc ++ [content])) s := by
  simp only [readTCAnnotationLoop, PeekN_of_remaining_cons h, List.headD_cons, if_neg hb,
    BoundedReader.andThen, boundedOf]
  split <;> simp_all

theorem readTCAnnotationLoop_progress {E : Env U F C P D X} (hC : KeepsBuffer E.readTCContent) :
    ∀ (fuel : Nat) (acc contents : List C) (s t : ObjectStream U P X),
      readTCAnnotationLoop E fuel acc s = some (.ok contents, t) → s.current < t.current := by
  intro fuel
  induction fuel with
  | zero =>
    intro acc contents s t h
    simp [readTCAnnotationLoop] at h
  | succ fuel ih =>
    intro acc contents s t h
    simp only [readTCAnnotationLoop] at h
    split at h
    · simp at h
    · rename_i bs s1 hPeek
      obtain ⟨hle, hbs, hs1⟩ := PeekN_ok hPeek
      rw [hs1] at h
      split at h
      · simp only [Option.some.injEq, Prod.mk.injEq, Except.ok.injEq] at h
        rw [ReadN_of_le s 1 hle] at h
        rw [← h.2]
        simp
      · split at h
        · simp at h
        · rename_i content s2 hR
          have := ih _ _ _ _ h
          have := (hC _ _ _ hR).2
          omega

theorem consumed_cons_of_remaining {s t : ObjectStream U P X} {b : Byte} {rest : List Byte}
    (h : s.remaining = b :: rest) (hlt : s.current < t.current) :
    ∃ tl, consumed s t = b :: tl := by
  unfold consumed
  unfold ObjectStream.remaining at h
  rw [h]
  obtain ⟨k, hk⟩ : ∃ k, t.current - s.current = k + 1 := ⟨t.current - s.current - 1, by omega⟩
  rw [hk]
  exact ⟨_, List.take_succ_cons⟩

theorem PrefixDetermined.readTCAnnotationLoop {E : Env U F C P D X}
    (hC : PrefixDetermined (boundedOf E.readTCContent)) :
    ∀ (fuel : Nat) (acc : List C), PrefixDetermined (readTCAnnotationLoop E fuel acc) := by
  intro fuel
  induction fuel with
  | zero =>
    intro acc s v t h
    simp [ZKAR.readTCAnnotationLoop] at h
  | succ fuel ih =>
    intro acc s v t h
    have hprog := readTCAnnotationLoop_progress hC.keepsBuffer _ _ _ _ _ h
    rcases hrem : s.remaining with _ | ⟨b, rest⟩
    · rw [readTCAnnotationLoop_nil E fuel acc hrem] at h
      simp at h
    · by_cases hb : b = JAVA_TC_ENDBLOCKDATA
      · subst hb
        rw [readTCAnnotationLoop_end E fuel acc hrem] at h
        simp only [Option.some.injEq, Prod.mk.injEq, Except.ok.injEq] at h
        obtain ⟨hv, ht⟩ := h
        subst hv ht
        have hcons : consumed s (s.advance 1 s.references) = [JAVA_TC_ENDBLOCKDATA] := by
          unfold consumed ObjectStream.advance
          unfold ObjectStream.remaining at hrem
          rw [hrem]
          simp
        refine ⟨rfl, by simp [ObjectStream.advance], by rw [hcons]; simp [ObjectStream.advance],
          ?_⟩
        intro s' href
        rw [hcons]
        constructor
        · intro hpre
          obtain ⟨rest', hrest'⟩ := hpre
          rw [readTCAnnotationLoop_end E fuel acc hrest'.symm]
          simp [ObjectStream.advance, href]
        · intro hpre hne
          have hnil : s'.remaining = [] := by
            rcases hs' : s'.remaining with _ | ⟨b', rest'⟩
            · rfl
            · rw [hs'] at hpre hne
              exfalso
              apply hne
              exact hpre.eq_of_length_le (by simp)
          rw [readTCAnnotationLoop_nil E fuel acc hnil]
          exact ⟨_, _, rfl⟩
      · have hG : PrefixDetermined ((boundedOf E.readTCContent).andThen fun content =>
            ZKAR.readTCAnnotationLoop E fuel (acc ++ [content])) :=
          hC.andThen fun content => ih (acc ++ [content])
        rw [readTCAnnotationLoop_content E fuel acc hrem hb] at h
        obtain ⟨hb1, hc1, hl1, htr⟩ := hG s v t h
        refine ⟨hb1, hc1, hl1, ?_⟩
        intro s' href
        obtain ⟨ha, hr⟩ := htr s' href
        obtain ⟨tl, htl⟩ := consumed_cons_of_remaining hrem hprog
        constructor
        · intro hpre
          have hpre' := hpre
          rw [htl] at hpre'
          obtain ⟨rest', hrest'⟩ := hpre'
          have hs' : s'.remaining = b :: (tl ++ rest') := by
            rw [← hrest']
            rfl
          rw [readTCAnnotationLoop_content E fuel acc hs' hb]
          exact ha hpre
        · intro hpre hne
          rcases hs' : s'.remaining with _ | ⟨b', rest'⟩
          · rw [readTCAnnotationLoop_nil E fuel acc hs']
            exact ⟨_, _, rfl⟩
          · have hb' : b' = b := by
              have hpre' := hpre
              rw [htl, hs'] at hpre'
              exact (List.cons_prefix_cons.mp hpre').1
            subst hb'
            rw [readTCAnnotationLoop_content E fuel acc hs' hb]
            exact hr hpre hne

theorem PrefixDetermined.classDescBody {E : Env U F C P D X}
    (hUTF : PrefixDetermined (boundedOf E.readUTF))
    (hField : PrefixDetermined (boundedOf E.readTCField))
    (hContent : PrefixDetermined (boundedOf E.readTCContent))
    (hPointer : PrefixDetermined (boundedOf E.readTCClassPointer)) (fuel : Nat) :
    PrefixDetermined (classDescBody E fuel) := by
  unfold ZKAR.classDescBody
  refine hUTF.andThen fun className => ?_
  refine PrefixDetermined.readSerialVersionUID.andThen fun uid => ?_
  refine (PrefixDetermined.addReferenceStep _).andThen fun handler => ?_
  refine (PrefixDetermined.readNStep 1 (by decide) _ _).andThen fun bs => ?_
  refine (PrefixDetermined.readTCFields hField).andThen fun fields => ?_
  refine PrefixDetermined.andThen (PrefixDetermined.readTCAnnotationLoop hContent fuel []) ?_
  intro contents
  refine hPointer.andThen fun superClassPointer => ?_
  exact PrefixDetermined.pure_ok _

theorem readTCNormalClassDesc_eq_body (E : Env U F C P D X) (fuel : Nat)
    (s : ObjectStream U P X) :
    readTCNormalClassDesc E fuel s = classDescBody E fuel (s.ReadN 1).2 := by
  unfold readTCNormalClassDesc classDescBody
  simp only [BoundedReader.andThen, boundedOf, addReferenceStep, readNStep]
  rcases E.readUTF (s.ReadN 1).2 with ⟨_ | className, s1⟩
  · rfl
  · simp only []
    rcases readSerialVersionUID s1 with ⟨_ | uid, s2⟩
    · rfl
    · simp only []
      rcases (s2.AddReference (Reference.classDesc className uid)).2.ReadN 1 with ⟨_ | bs, s4⟩
      · rfl
      · simp only []
        rcases readTCFields E s4 with ⟨_ | fields, s5⟩
        · rfl
        · simp only []
          rcases readTCAnnotation E fuel s5 with _ | ⟨_ | contents, s6⟩
          · rfl
          · rfl
          · simp only []
            rcases E.readTCClassPointer s6 with ⟨_ | p, s7⟩
            · rfl
            · rfl

end PrefixDeterminedFacts

/-! ## The sample collaborators are prefix-determined -/

section SamplePrefix
variable {U P X α : Type}

theorem liftParser_prefixDetermined (p : List Byte → Option (α × Nat))
    (hlen : ∀ bs v n, p bs = some (v, n) → n ≤ bs.length)
    (hext : ∀ bs v n rest, p bs = some (v, n) → p (bs.take n ++ rest) = some (v, n))
    (hrej : ∀ bs v n q, p bs = some (v, n) → q <+: bs.take n → q ≠ bs.take n → p q = none) :
    PrefixDetermined (boundedOf (liftParser p : Reader U P X α)) := by
  intro s v t h
  simp only [boundedOf, liftParser, Option.some.injEq] at h
  split at h
  · rename_i v1 n hp
    simp only [Prod.mk.injEq, Except.ok.injEq] at h
    obtain ⟨hv, ht⟩ := h
    subst hv ht
    have hn := hlen _ _ _ hp
    have hcons : consumed s { s with current := s.current + n } = (s.bs.drop s.current).take n := by
      simp [consumed]
    refine ⟨rfl, by simp, ?_, ?_⟩
    · rw [hcons, List.length_take]
      simp only [add_tsub_cancel_left]
      omega
    · intro s' href
      rw [hcons]
      constructor
      · intro hpre
        obtain ⟨rest, hrest⟩ := hpre
        have hp' := hext _ _ _ rest hp
        simp only [boundedOf, liftParser]
        unfold ObjectStream.remaining at hrest
        rw [← hrest, hp']
        simp [ObjectStream.advance, href]
      · intro hpre hne
        have hp' := hrej _ _ _ _ hp hpre hne
        simp only [boundedOf, liftParser]
        unfold ObjectStream.remaining at hp'
        rw [hp']
        exact ⟨_, _, rfl⟩
  · simp at h

theorem parseUTF_length (bs : List Byte) (v : List Byte) (n : Nat)
    (h : parseUTF bs = some (v, n)) : n ≤ bs.length := by
  match bs, h with
  | a :: b :: rest, h =>
    simp only [parseUTF] at h
    split at h
    · simp only [Option.some.injEq, Prod.mk.injEq] at h
      simp only [List.length_cons]
      omega
    · simp at h

theorem parseUTF_extend (bs : List Byte) (v : List Byte) (n : Nat) (rest : List Byte)
    (h : parseUTF bs = some (v, n)) : parseUTF (bs.take n ++ rest) = some (v, n) := by
  match bs, h with
  | a :: b :: tl, h =>
    simp only [parseUTF] at h
    split at h
    · rename_i hle
      simp only [Option.some.injEq, Prod.mk.injEq] at h
      obtain ⟨hv, hn⟩ := h
      subst hv hn
      have hk : (List.take (a.val * 256 + b.val) tl).length = a.val * 256 + b.val := by
        simp [List.length_take, hle]
      simp only [List.take_succ_cons, List.cons_append, parseUTF, List.length_append, hk]
      rw [if_pos (by omega)]
      congr 2
      rw [List.take_append_of_le_length (by omega), List.take_take]
      simp
    · simp at h

theorem parseUTF_reject (bs : List Byte) (v : List Byte) (n : Nat) (q : List Byte)
    (h : parseUTF bs = some (v, n)) (hq : q <+: bs.take n) (hne : q ≠ bs.take n) :
    parseUTF q = none := by
  match bs, h with
  | a :: b :: tl, h =>
    simp only [parseUTF] at h
    split at h
    · rename_i hle
      simp only [Option.some.injEq, Prod.mk.injEq] at h
      obtain ⟨hv, hn⟩ := h
      subst hv hn
      simp only [List.take_succ_cons] at hq hne
      match q, hq, hne with
      | [], _, _ => rfl
      | [_], _, _ => rfl
      | a' :: b' :: q', hq, hne =>
        obtain ⟨ha, hq1⟩ := List.cons_prefix_cons.mp hq
        obtain ⟨hb, hq2⟩ := List.cons_prefix_cons.mp hq1
        subst ha hb
        have hlt : q'.length < a'.val * 256 + b'.val := by
          by_contra hge
          apply hne
          have hl : (List.take (a'.val * 256 + b'.val) tl).length ≤ q'.length := by
            rw [List.length_take]
            omega
          rw [hq2.eq_of_length_le hl]
        simp only [parseUTF]
        rw [if_neg (by omega)]
    · simp at h

theorem parseField_length (bs : List Byte) (v : Byte × List Byte) (n : Nat)
    (h : parseField bs = some (v, n)) : n ≤ bs.length := by
  match bs, h with
  | code :: rest, h =>
    simp only [parseField] at h
    split at h
    · rename_i name m hU
      simp only [Option.some.injEq, Prod.mk.injEq] at h
      have := parseUTF_length _ _ _ hU
      simp only [List.length_cons]
      omega
    · simp at h

theorem parseField_extend (bs : List Byte) (v : Byte × List Byte) (n : Nat) (rest : List Byte)
    (h : parseField bs = some (v, n)) : parseField (bs.take n ++ rest) = some (v, n) := by
  match bs, h with
  | code :: tl, h =>
    simp only [parseField] at h
    split at h
    · rename_i name m hU
      simp only [Option.some.injEq, Prod.mk.injEq] at h
      obtain ⟨hv, hn⟩ := h
      subst hv hn
      simp only [List.take_succ_cons, List.cons_append, parseField,
        parseUTF_extend _ _ _ rest hU]
    · simp at h

theorem parseField_reject (bs : List Byte) (v : Byte × List Byte) (n : Nat) (q : List Byte)
    (h : parseField bs = some (v, n)) (hq : q <+: bs.take n) (hne : q ≠ bs.take n) :
    parseField q = none := by
  match bs, h with
  | code :: tl, h =>
    simp only [parseField] at h
    split at h
    · rename_i name m hU
      simp only [Option.some.injEq, Prod.mk.injEq] at h
      obtain ⟨hv, hn⟩ := h
      subst hv hn
      simp only [List.take_succ_cons] at hq hne
      match q, hq, hne with
      | [], _, _ => rfl
      | c' :: q', hq, hne =>
        obtain ⟨hc, hq1⟩ := List.cons_prefix_cons.mp hq
        subst hc
        have hne1 : q' ≠ List.take m tl := fun e => hne (by rw [e])
        simp only [parseField, parseUTF_reject _ _ _ _ hU hq1 hne1]
    · simp at h

theorem parseContent_length (bs : List Byte) (v : TCNull) (n : Nat)
    (h : parseContent bs = some (v, n)) : n ≤ bs.length := by
  match bs, h with
  | b :: rest, h =>
    simp only [parseContent] at h
    split at h
    · simp only [Option.some.injEq, Prod.mk.injEq] at h
      simp only [List.length_cons]
      omega
    · simp at h

theorem parseContent_extend (bs : List Byte) (v : TCNull) (n : Nat) (rest : List Byte)
    (h : parseContent bs = some (v, n)) : parseContent (bs.take n ++ rest) = some (v, n) := by
  match bs, h with
  | b :: tl, h =>
    simp only [parseContent] at h
    split at h
    · rename_i hb
      simp only [Option.some.injEq, Prod.mk.injEq] at h
      obtain ⟨_, hn⟩ := h
      subst hn
      simp [parseContent, hb]
    · simp at h

theorem parseContent_reject (bs : List Byte) (v : TCNull) (n : Nat) (q : List Byte)
    (h : parseContent bs = some (v, n)) (hq : q <+: bs.take n) (hne : q ≠ bs.take n) :
    parseContent q = none := by
  match bs, h with
  | b :: tl, h =>
    simp only [parseContent] at h
    split at h
    · simp only [Option.some.injEq, Prod.mk.injEq] at h
      obtain ⟨_, hn⟩ := h
      subst hn
      match q, hq, hne with
      | [], _, _ => rfl
      | c' :: q', hq, hne =>
        exfalso
        apply hne
        exact hq.eq_of_length_le (by simp)
    · simp at h

theorem parsePointer_length (bs : List Byte) (v : Option Nat) (n : Nat)
    (h : parsePointer bs = some (v, n)) : n ≤ bs.length := by
  match bs, h with
  | b :: rest, h =>
    simp only [parsePointer] at h
    split at h
    · simp only [Option.some.injEq, Prod.mk.injEq] at h
      simp only [List.length_cons]
      omega
    · split at h
      · split at h
        · simp only [Option.some.injEq, Prod.mk.injEq] at h
          simp only [List.length_cons]
          omega
        · simp at h
      · simp at h

theorem parsePointer_extend (bs : List Byte) (v : Option Nat) (n : Nat) (rest : List Byte)
    (h : parsePointer bs = some (v, n)) : parsePointer (bs.take n ++ rest) = some (v, n) := by
  match bs, h with
  | b :: tl, h =>
    simp only [parsePointer] at h
    split at h
    · rename_i hb
      simp only [Option.some.injEq, Prod.mk.injEq] at h
      obtain ⟨hv, hn⟩ := h
      subst hv hn
      simp [parsePointer, hb]
    · rename_i hb
      split at h
      · rename_i hr
        split at h
        · rename_i hle
          simp only [Option.some.injEq, Prod.mk.injEq] at h
          obtain ⟨hv, hn⟩ := h
          subst hv hn
          have hk : (List.take 4 tl).length = 4 := by simp [List.length_take, hle]
          simp only [List.take_succ_cons, List.cons_append, parsePointer, if_neg hb, if_pos hr,
            List.length_append, hk]
          rw [if_pos (by omega), List.take_append_of_le_length (by omega), List.take_take]
          simp
        · simp at h
      · simp at h

theorem parsePointer_reject (bs : List Byte) (v : Option Nat) (n : Nat) (q : List Byte)
    (h : parsePointer bs = some (v, n)) (hq : q <+: bs.take n) (hne : q ≠ bs.take n) :
    parsePointer q = none := by
  match bs, h with
  | b :: tl, h =>
    simp only [parsePointer] at h
    split at h
    · simp only [Option.some.injEq, Prod.mk.injEq] at h
      obtain ⟨hv, hn⟩ := h
      subst hv hn
      match q, hq, hne with
      | [], _, _ => rfl
      | c' :: q', hq, hne =>
        exfalso
        apply hne
        exact hq.eq_of_length_le (by simp)
    · rename_i hb
      split at h
      · rename_i hr
        split at h
        · rename_i hle
          simp only [Option.some.injEq, Prod.mk.injEq] at h
          obtain ⟨hv, hn⟩ := h
          subst hv hn
          simp only [List.take_succ_cons] at hq hne
          match q, hq, hne with
          | [], _, _ => rfl
          | c' :: q', hq, hne =>
            obtain ⟨hc, hq1⟩ := List.cons_prefix_cons.mp hq
            subst hc
            have hlt : q'.length < 4 := by
              by_contra hge
              apply hne
              have hl : (List.take 4 tl).length ≤ q'.length := by
                rw [List.length_take]
                omega
              rw [hq1.eq_of_length_le hl]
            simp only [parsePointer, if_neg hb, if_pos hr]
            rw [if_neg (by omega)]
        · simp at h
      · simp at h

theorem sampleEnv_readUTF_prefixDetermined : PrefixDetermined (boundedOf sampleEnv.readUTF) :=
  liftParser_prefixDetermined parseUTF parseUTF_length parseUTF_extend parseUTF_reject

theorem sampleEnv_readTCField_prefixDetermined :
    PrefixDetermined (boundedOf sampleEnv.readTCField) :=
  liftParser_prefixDetermined parseField parseField_length parseField_extend parseField_reject

theorem sampleEnv_readTCContent_prefixDetermined :
    PrefixDetermined (boundedOf sampleEnv.readTCContent) :=
  liftParser_prefixDetermined parseContent parseContent_length parseContent_extend
    parseContent_reject

theorem sampleEnv_readTCClassPointer_prefixDetermined :
    PrefixDetermined (boundedOf sampleEnv.readTCClassPointer) :=
  liftParser_prefixDetermined parsePointer parsePointer_length parsePointer_extend
    parsePointer_reject

end SamplePrefix

/-! ## Truncation, and the tag byte -/

section Truncation
variable {U F C P D X : Type}

theorem readSerialVersionUID_of_lt (s : ObjectStream U P X) (h : s.bs.length < s.current + 8) :
    readSerialVersionUID s
      = (.error (.errorf "read SerialVersionUID failed on index %v" s.CurrentIndex), s) := by
  unfold readSerialVersionUID
  rw [ReadN_of_lt s 8 h]

theorem classDescBody_error_of_short {E : Env U F C P D X} (hUTF : KeepsBuffer E.readUTF)
    (fuel : Nat) (s : ObjectStream U P X) (h : s.bs.length < s.current + 8) :
    ∃ e t, classDescBody E fuel s = some (.error e, t) := by
  unfold classDescBody
  simp only [BoundedReader.andThen, boundedOf]
  rcases hU : E.readUTF s with ⟨_ | className, s1⟩
  · exact ⟨_, _, rfl⟩
  · obtain ⟨hb, hc⟩ := hUTF _ _ _ hU
    simp only []
    rw [readSerialVersionUID_of_lt s1 (by rw [hb]; omega)]
    exact ⟨_, _, rfl⟩

/-- A successful `readTCNormalClassDesc` found its tag byte: the run is the
body run from the next position. -/
theorem readTCNormalClassDesc_ok_body {E : Env U F C P D X} (hUTF : KeepsBuffer E.readUTF)
    {fuel : Nat} {s t : ObjectStream U P X} {d : TCClassDesc U F C P}
    (h : readTCNormalClassDesc E fuel s = some (.ok d, t)) :
    s.current + 1 ≤ s.bs.length ∧
      classDescBody E fuel (s.advance 1 s.references) = some (.ok d, t) := by
  have hlt : s.current + 1 ≤ s.bs.length := by
    by_contra hge
    rw [readTCNormalClassDesc_eq_body, ReadN_of_lt s 1 (by omega)] at h
    obtain ⟨e, t1, he⟩ := classDescBody_error_of_short hUTF fuel s (by omega)
    simp only at h
    rw [he] at h
    simp at h
  refine ⟨hlt, ?_⟩
  rw [readTCNormalClassDesc_eq_body, ReadN_of_le s 1 hlt] at h
  exact h

/-- C6: if `readTCNormalClassDesc` succeeds on a stream, consuming the bytes
`B`, then on a stream that holds only a proper prefix of `B` (the empty one
included) it returns an error and no descriptor, with the same iteration
bound; given sub-readers that are prefix-determined, that is, accept a stream
that starts with a record they accepted and reject a stream that ends inside
one. -/
theorem readTCNormalClassDesc_rejects_truncation (E : Env U F C P D X)
    (hUTF : PrefixDetermined (boundedOf E.readUTF))
    (hField : PrefixDetermined (boundedOf E.readTCField))
    (hContent : PrefixDetermined (boundedOf E.readTCContent))
    (hPointer : PrefixDetermined (boundedOf E.readTCClassPointer))
    (fuel : Nat) (s t : ObjectStream U P X) (d : TCClassDesc U F C P)
    (h : readTCNormalClassDesc E fuel s = some (.ok d, t))
    (pre : List Byte) (hpre : pre <+: consumed s t) (hne : pre ≠ consumed s t) :
    ∃ e t', readTCNormalClassDesc E fuel { bs := pre, current := 0, references := s.references }
      = some (.error e, t') := by
  have hB := PrefixDetermined.classDescBody hUTF hField hContent hPointer fuel
  obtain ⟨hlt, hbody⟩ := readTCNormalClassDesc_ok_body hUTF.keepsBuffer h
  obtain ⟨hb0, hc0, hl0, htr⟩ := hB _ _ _ hbody
  have r0 : Reads s (s.advance 1 s.references) (List.take 1 (List.drop s.current s.bs)) := by
    have := Reads.of_ReadN (ReadN_of_le s 1 hlt)
    exact this
  have happ := (Reads.trans r0 ⟨hb0, hc0, rfl⟩).2.2
  have hlen1 : (List.take 1 (List.drop s.current s.bs)).length = 1 := take_drop_length hlt
  rw [singleton_of_length_one hlen1] at happ
  rw [happ] at hpre hne
  rw [readTCNormalClassDesc_eq_body]
  match pre, hpre, hne with
  | [], _, _ =>
    rw [ReadN_of_lt _ 1 (by simp)]
    exact classDescBody_error_of_short hUTF.keepsBuffer fuel _ (by simp)
  | b :: pre0, hpre, hne =>
    obtain ⟨hbb, hpre0⟩ := List.cons_prefix_cons.mp hpre
    have hne0 : pre0 ≠ consumed (s.advance 1 s.references) t := by
      intro e
      apply hne
      rw [hbb, e]
      rfl
    rw [ReadN_of_le _ 1 (by simp)]
    obtain ⟨_, hrej⟩ := htr { bs := b :: pre0, current := 0 + 1, references := s.references } rfl
    exact hrej (by simpa [ObjectStream.remaining] using hpre0)
      (by simpa [ObjectStream.remaining] using hne0)

/-- Witness of C6: the sample class descriptor cut after its twelfth byte
(the end of the version id) is rejected. -/
theorem readTCNormalClassDesc_rejects_truncation_witness :
    ∃ e t', readTCNormalClassDesc sampleEnv 2
        { bs := classDescBytes.take 12, current := 0, references := [] } = some (.error e, t') :=
  readTCNormalClassDesc_rejects_truncation sampleEnv sampleEnv_readUTF_prefixDetermined
    sampleEnv_readTCField_prefixDetermined sampleEnv_readTCContent_prefixDetermined
    sampleEnv_readTCClassPointer_prefixDetermined 2 (sampleStream classDescBytes) _ classDescA
    sample_readTCNormalClassDesc (classDescBytes.take 12) (by decide) (by decide)

/-- Counterexample to C7: a stream whose first byte is `0x00`, not
`TC_CLASSDESC`, followed by the body of the sample class descriptor, is decoded
as that class descriptor. -/
theorem readTCNormalClassDesc_accepts_other_tag :
    (0x00 : Byte) ≠ JAVA_TC_CLASSDESC ∧
      readTCNormalClassDesc sampleEnv 2 (sampleStream (0x00 :: classDescBytes.tail))
        = some (.ok classDescA,
            { bs := 0x00 :: classDescBytes.tail, current := 22,
              references := [Reference.classDesc [0x41] 1] }) :=
  ⟨by decide, rfl⟩

/-- C7, amended: `readTCNormalClassDesc` consumes its first byte without
inspecting it. If it succeeds on a stream, then on the stream with any byte
`b` in place of the byte at the read position it succeeds with the same
descriptor, end position and handle table (sub-readers prefix-determined). -/
theorem readTCNormalClassDesc_ignores_tag_value (E : Env U F C P D X)
    (hUTF : PrefixDetermined (boundedOf E.readUTF))
    (hField : PrefixDetermined (boundedOf E.readTCField))
    (hContent : PrefixDetermined (boundedOf E.readTCContent))
    (hPointer : PrefixDetermined (boundedOf E.readTCClassPointer))
    (fuel : Nat) (s t : ObjectStream U P X) (d : TCClassDesc U F C P)
    (h : readTCNormalClassDesc E fuel s = some (.ok d, t)) (b : Byte) :
    readTCNormalClassDesc E fuel { s with bs := s.bs.set s.current b }
      = some (.ok d, { t with bs := s.bs.set s.current b }) := by
  have hB := PrefixDetermined.classDescBody hUTF hField hContent hPointer fuel
  obtain ⟨hlt, hbody⟩ := readTCNormalClassDesc_ok_body hUTF.keepsBuffer h
  obtain ⟨hb0, hc0, hl0, htr⟩ := hB _ _ _ hbody
  obtain ⟨hacc, _⟩ := htr ⟨s.bs.set s.current b, s.current + 1, s.references⟩ rfl
  have hrem : (⟨s.bs.set s.current b, s.current + 1, s.references⟩ : ObjectStream U P X).remaining
      = (s.advance 1 s.references).remaining := by
    simp [ObjectStream.remaining, ObjectStream.advance, List.drop_set_of_lt]
  have hres := hacc (by rw [hrem]; exact consumed_prefix_remaining _ _)
  rw [readTCNormalClassDesc_eq_body, ReadN_of_le _ 1 (by simpa using hlt)]
  simp only
  rw [hres]
  have hcur : s.current + 1 + (t.current - (s.current + 1)) = t.current := by
    simp only [ObjectStream.advance] at hc0
    omega
  simp [ObjectStream.advance, hcur]

/-- Witness of C7 (amended): the sample class descriptor with `0x00` in place
of its tag byte. -/
theorem readTCNormalClassDesc_ignores_tag_value_witness :
    readTCNormalClassDesc sampleEnv 2
        { sampleStream classDescBytes with bs := classDescBytes.set 0 0x00 }
      = some (.ok classDescA,
          { bs := classDescBytes.set 0 0x00, current := 22,
            references := [Reference.classDesc [0x41] 1] }) :=
  readTCNormalClassDesc_ignores_tag_value sampleEnv sampleEnv_readUTF_prefixDetermined
    sampleEnv_readTCField_prefixDetermined sampleEnv_readTCContent_prefixDetermined
    sampleEnv_readTCClassPointer_prefixDetermined 2 (sampleStream classDescBytes) _ classDescA
    sample_readTCNormalClassDesc 0x00

end Truncation

/-! ## The encoding of a class descriptor -/

section Encoding
variable {U F C P D X : Type}

theorem bigEndianValue_bigEndianBytes (w n : Nat) :
    bigEndianValue (bigEndianBytes w n) = n % 256 ^ w := by
  induction w with
  | zero => simp [bigEndianBytes, bigEndianValue, Nat.mod_one]
  | succ w ih =>
    simp only [bigEndianBytes]
    rw [bigEndianValue_cons, ih, bigEndianBytes_length, Nat.mod_pow_succ]
    simp only
    ring

theorem NumberToBytes_int64_length (v : Int) : (NumberToBytes_int64 v).length = 8 :=
  bigEndianBytes_length 8 _

theorem NumberToBytes_uint16_length (v : Nat) : (NumberToBytes_uint16 v).length = 2 :=
  bigEndianBytes_length 2 _

theorem fieldCountBytes_eq (E : Env U F C P D X) (d : TCClassDesc U F C P) :
    fieldCountBytes E d = NumberToBytes_uint16 (uint16OfInt d.Fields.length) := by
  unfold fieldCountBytes
  have h8 := NumberToBytes_int64_length d.SerialVersionUID
  have h2 := NumberToBytes_uint16_length (uint16OfInt d.Fields.length)
  have hl : ([JAVA_TC_CLASSDESC] ++ E.TCUtf_ToBytes d.ClassName
      ++ NumberToBytes_int64 d.SerialVersionUID ++ [d.ClassDescFlags]).length
        = 1 + (E.TCUtf_ToBytes d.ClassName).length + 8 + 1 := by
    simp only [List.length_append, List.length_singleton, h8]
  have e : d.ToBytes E
      = ([JAVA_TC_CLASSDESC] ++ E.TCUtf_ToBytes d.ClassName
          ++ NumberToBytes_int64 d.SerialVersionUID ++ [d.ClassDescFlags])
        ++ (NumberToBytes_uint16 (uint16OfInt d.Fields.length)
          ++ (d.Fields.flatMap E.TCFieldDesc_ToBytes
            ++ List.flatMap d.ClassAnnotation E.TCContent_ToBytes
            ++ [JAVA_TC_ENDBLOCKDATA] ++ E.TCClassPointer_ToBytes d.SuperClassPointer)) := by
    rw [ToBytes_eq_concat]
    simp only [List.append_assoc]
  rw [e, ← hl, List.drop_left]
  conv_lhs => rw [← h2]
  rw [List.take_left]

theorem BigEndian_Uint16_NumberToBytes_uint16 (n : Nat) :
    BigEndian_Uint16 (NumberToBytes_uint16 n) = n % 65536 := by
  unfold BigEndian_Uint16 NumberToBytes_uint16
  rw [List.take_of_length_le (by rw [bigEndianBytes_length]), bigEndianValue_bigEndianBytes]
  norm_num

/-- Counterexample to C8: for a class descriptor with 65536 fields the two
count bytes are `00 00`, the encoding of `0`. -/
theorem fieldCountBytes_wraps_at_65536 :
    classDescManyFields.Fields.length = 65536 ∧
      fieldCountBytes sampleEnv classDescManyFields = [0x00, 0x00] ∧
      BigEndian_Uint16 (fieldCountBytes sampleEnv classDescManyFields) = 0 := by
  have hlen : classDescManyFields.Fields.length = 65536 :=
    List.length_replicate 65536 _
  have hb : fieldCountBytes sampleEnv classDescManyFields = [0x00, 0x00] := by
    rw [fieldCountBytes_eq, hlen]
    rfl
  refine ⟨hlen, hb, ?_⟩
  rw [hb]
  rfl

/-- C8, amended: for every class descriptor with at most 65535 fields, the two
bytes that `ToBytes` emits between the flag byte and the first field
descriptor are the big-endian encoding of `len(Fields)`, and they decode to
`len(Fields)`. -/
theorem fieldCountBytes_encodes_length (E : Env U F C P D X) (d : TCClassDesc U F C P)
    (h : d.Fields.length < 65536) :
    fieldCountBytes E d = bigEndianBytes 2 d.Fields.length ∧
      BigEndian_Uint16 (fieldCountBytes E d) = d.Fields.length := by
  have hu : uint16OfInt d.Fields.length = d.Fields.length := by
    unfold uint16OfInt
    exact Nat.mod_eq_of_lt (by omega)
  rw [fieldCountBytes_eq, hu]
  refine ⟨?_, ?_⟩
  · unfold NumberToBytes_uint16
    rw [Nat.mod_eq_of_lt (by omega)]
  · rw [BigEndian_Uint16_NumberToBytes_uint16]
    exact Nat.mod_eq_of_lt h

/-- Witness of C8 (amended): the sample class descriptor has one field. -/
theorem fieldCountBytes_encodes_length_witness :
    fieldCountBytes sampleEnv classDescA = bigEndianBytes 2 1 ∧
      BigEndian_Uint16 (fieldCountBytes sampleEnv classDescA) = 1 :=
  fieldCountBytes_encodes_length sampleEnv classDescA (by decide)

/-- C9: `ToBytes` of a class descriptor is the concatenation of the tag byte
`TC_CLASSDESC`, the class name's bytes, the 8 bytes of the version id, the flag
byte, the 2 bytes of the field count, each field descriptor's bytes in list
order, each annotation content's bytes in list order, the byte
`TC_ENDBLOCKDATA` and the super-class pointer's bytes; with an empty
annotation list the end marker directly follows the field descriptors. -/
theorem TCClassDesc_ToBytes_layout (E : Env U F C P D X) (d : TCClassDesc U F C P) :
    d.ToBytes E =
        [JAVA_TC_CLASSDESC] ++ E.TCUtf_ToBytes d.ClassName
          ++ NumberToBytes_int64 d.SerialVersionUID
          ++ [d.ClassDescFlags] ++ NumberToBytes_uint16 (uint16OfInt d.Fields.length)
          ++ (d.Fields.map E.TCFieldDesc_ToBytes).flatten
          ++ (List.map E.TCContent_ToBytes d.ClassAnnotation).flatten
          ++ [JAVA_TC_ENDBLOCKDATA] ++ E.TCClassPointer_ToBytes d.SuperClassPointer ∧
      (NumberToBytes_int64 d.SerialVersionUID).length = 8 ∧
      (NumberToBytes_uint16 (uint16OfInt d.Fields.length)).length = 2 ∧
      TCClassDesc.ToBytes E { d with ClassAnnotation := [] } =
        [JAVA_TC_CLASSDESC] ++ E.TCUtf_ToBytes d.ClassName
          ++ NumberToBytes_int64 d.SerialVersionUID
          ++ [d.ClassDescFlags] ++ NumberToBytes_uint16 (uint16OfInt d.Fields.length)
          ++ (d.Fields.map E.TCFieldDesc_ToBytes).flatten
          ++ [JAVA_TC_ENDBLOCKDATA] ++ E.TCClassPointer_ToBytes d.SuperClassPointer := by
  refine ⟨?_, NumberToBytes_int64_length _, NumberToBytes_uint16_length _, ?_⟩
  · rw [ToBytes_eq_concat]
    simp only [List.flatMap_def]
  · rw [ToBytes_eq_concat]
    simp only [List.flatMap_def, List.map_nil, List.flatten_nil, List.append_nil]

end Encoding

/-! ## Registration in the handle table -/

section Registration
variable {U F C P D X : Type}

theorem ReadN_references (s : ObjectStream U P X) (n : Nat) :
    (s.ReadN n).2.references = s.references := by
  unfold ObjectStream.ReadN
  split <;> rfl

theorem readSerialVersionUID_references (s : ObjectStream U P X) :
    (readSerialVersionUID s).2.references = s.references := by
  have h := ReadN_references s 8
  unfold readSerialVersionUID
  split <;> rename_i heq <;> rw [heq] at h <;> exact h

theorem readTCFieldsLoop_appendsOnly {E : Env U F C P D X} (hF : AppendsOnly E.readTCField) :
    ∀ (n : Nat) (acc : List F), AppendsOnly (readTCFieldsLoop E n acc) := by
  intro n
  induction n with
  | zero =>
    intro acc s v t h
    simp only [readTCFieldsLoop, Prod.mk.injEq] at h
    exact ⟨[], by rw [← h.2]; simp⟩
  | succ n ih =>
    intro acc s v t h
    simp only [readTCFieldsLoop] at h
    split at h
    · simp at h
    · rename_i field s1 hR
      obtain ⟨a1, h1⟩ := hF _ _ _ hR
      obtain ⟨a2, h2⟩ := ih _ _ _ _ h
      exact ⟨a1 ++ a2, by rw [h2, h1, List.append_assoc]⟩

theorem readTCFields_appendsOnly {E : Env U F C P D X} (hF : AppendsOnly E.readTCField) :
    AppendsOnly (readTCFields E) := by
  intro s v t h
  obtain ⟨bs, s1, hR, hL⟩ := readTCFields_ok h
  obtain ⟨a, ha⟩ := readTCFieldsLoop_appendsOnly hF _ _ _ _ _ hL
  have := ReadN_references s 2
  rw [hR] at this
  exact ⟨a, by rw [ha, this]⟩

theorem readTCAnnotationLoop_appendsOnly {E : Env U F C P D X}
    (hC : AppendsOnly E.readTCContent) :
    ∀ (fuel : Nat) (acc contents : List C) (s t : ObjectStream U P X),
      readTCAnnotationLoop E fuel acc s = some (.ok contents, t) →
      ∃ added, t.references = s.references ++ added := by
  intro fuel
  induction fuel with
  | zero =>
    intro acc contents s t h
    simp [readTCAnnotationLoop] at h
  | succ fuel ih =>
    intro acc contents s t h
    simp only [readTCAnnotationLoop] at h
    split at h
    · simp at h
    · rename_i bs s1 hPeek
      obtain ⟨_, _, hs1⟩ := PeekN_ok hPeek
      rw [hs1] at h
      split at h
      · simp only [Option.some.injEq, Prod.mk.injEq] at h
        exact ⟨[], by rw [← h.2, ReadN_references]; simp⟩
      · split at h
        · simp at h
        · rename_i content s2 hR
          obtain ⟨a1, h1⟩ := hC _ _ _ hR
          obtain ⟨a2, h2⟩ := ih _ _ _ _ h
          exact ⟨a1 ++ a2, by rw [h2, h1, List.append_assoc]⟩

/-- C10: a successful `readTCNormalClassDesc` appends the descriptor to the
handle table once: the name and the version id are read with the table as it
was, the flag byte is read from the state that already holds the new entry,
and whatever the fields, the annotations and the super-class pointer register
comes after it. A failure while reading the name or the version id leaves the
table unchanged. Given that `readUTF` leaves the table alone and the other
sub-readers only append to it. -/
theorem readTCNormalClassDesc_registration (E : Env U F C P D X)
    (hUTF : KeepsReferences E.readUTF) (hField : AppendsOnly E.readTCField)
    (hContent : AppendsOnly E.readTCContent) (hPointer : AppendsOnly E.readTCClassPointer) :
    (∀ fuel (s t : ObjectStream U P X) d, readTCNormalClassDesc E fuel s = some (.ok d, t) →
      ∃ s1 s2 fl s4 s5 s6 addedFields addedContents addedPointer,
        E.readUTF (s.ReadN 1).2 = (.ok d.ClassName, s1) ∧
        readSerialVersionUID s1 = (.ok d.SerialVersionUID, s2) ∧
        s2.references = s.references ∧
        (s2.AddReference (Reference.classDesc d.ClassName d.SerialVersionUID)).2.ReadN 1
          = (.ok fl, s4) ∧
        s4.references = s.references ++ [Reference.classDesc d.ClassName d.SerialVersionUID] ∧
        readTCFields E s4 = (.ok d.Fields, s5) ∧
        s5.references = s4.references ++ addedFields ∧
        readTCAnnotation E fuel s5 = some (.ok d.ClassAnnotation, s6) ∧
        s6.references = s5.references ++ addedContents ∧
        E.readTCClassPointer s6 = (.ok d.SuperClassPointer, t) ∧
        t.references = s6.references ++ addedPointer ∧
        t.references = s.references ++ [Reference.classDesc d.ClassName d.SerialVersionUID]
          ++ addedFields ++ addedContents ++ addedPointer) ∧
    (∀ fuel (s s1 : ObjectStream U P X) e, E.readUTF (s.ReadN 1).2 = (.error e, s1) →
      readTCNormalClassDesc E fuel s = some (.error e, s1) ∧ s1.references = s.references) ∧
    (∀ fuel (s s1 s2 : ObjectStream U P X) name e, E.readUTF (s.ReadN 1).2 = (.ok name, s1) →
      readSerialVersionUID s1 = (.error e, s2) →
      readTCNormalClassDesc E fuel s = some (.error e, s2) ∧ s2.references = s.references) := by
  refine ⟨?_, ?_, ?_⟩
  · intro fuel s t d h
    obtain ⟨name, s1, uid, s2, fl, s4, fields, s5, contents, s6, p,
      hU, hV, hFl, hFs, hA, hP, hd⟩ := readTCNormalClassDesc_ok_inv h
    have e1 : s1.references = s.references := by
      have := hUTF (s.ReadN 1).2
      rw [hU, ReadN_references] at this
      exact this
    have e2 : s2.references = s.references := by
      have := readSerialVersionUID_references s1
      rw [hV] at this
      exact this.trans e1
    have e4 : s4.references = s.references ++ [Reference.classDesc name uid] := by
      have := ReadN_references (s2.AddReference (Reference.classDesc name uid)).2 1
      rw [hFl] at this
      rw [this]
      simp [ObjectStream.AddReference, e2]
    obtain ⟨aF, hF5⟩ := readTCFields_appendsOnly hField _ _ _ hFs
    obtain ⟨aC, hC6⟩ := readTCAnnotationLoop_appendsOnly hContent _ _ _ _ _ hA
    obtain ⟨aP, hP7⟩ := hPointer _ _ _ hP
    subst hd
    refine ⟨s1, s2, fl, s4, s5, s6, aF, aC, aP, hU, hV, e2, hFl, e4, hFs, hF5, hA, hC6, hP, hP7,
      ?_⟩
    rw [hP7, hC6, hF5, e4]
  · intro fuel s s1 e hU
    refine ⟨?_, ?_⟩
    · unfold readTCNormalClassDesc
      simp only [hU]
    · have := hUTF (s.ReadN 1).2
      rw [hU, ReadN_references] at this
      exact this
  · intro fuel s s1 s2 name e hU hV
    refine ⟨?_, ?_⟩
    · unfold readTCNormalClassDesc
      simp only [hU, hV]
    · have h1 := hUTF (s.ReadN 1).2
      rw [hU, ReadN_references] at h1
      have h2 := readSerialVersionUID_references s1
      rw [hV] at h2
      exact h2.trans h1

theorem liftParser_keepsReferences {α : Type} (p : List Byte → Option (α × Nat)) :
    KeepsReferences (liftParser p : Reader U P X α) := by
  intro s
  unfold liftParser
  split <;> rfl

theorem KeepsReferences.appendsOnly {α : Type} {r : Reader U P X α} (h : KeepsReferences r) :
    AppendsOnly r := by
  intro s v t hr
  have := h s
  rw [hr] at this
  exact ⟨[], by simpa using this⟩

/-- Witness of C10: the decode of the sample class descriptor leaves its entry
in the table, and a stream that ends inside the version id leaves none. -/
theorem readTCNormalClassDesc_registration_witness :
    (∃ addedFields addedContents addedPointer,
      [Reference.classDesc [0x41] 1]
        = ([] : List (Reference (List Byte) (Option Nat) Unit))
            ++ [Reference.classDesc classDescA.ClassName classDescA.SerialVersionUID]
            ++ addedFields ++ addedContents ++ addedPointer) ∧
      ∃ e t, readTCNormalClassDesc sampleEnv 2 (sampleStream (classDescBytes.take 8))
        = some (.error e, t) ∧ t.references = [] := by
  have hthm := readTCNormalClassDesc_registration sampleEnv (liftParser_keepsReferences parseUTF)
    (liftParser_keepsReferences parseField).appendsOnly
    (liftParser_keepsReferences parseContent).appendsOnly
    (liftParser_keepsReferences parsePointer).appendsOnly
  refine ⟨?_, ?_⟩
  · obtain ⟨_, _, _, _, _, _, aF, aC, aP, _, _, _, _, _, _, _, _, _, _, _, hall⟩ :=
      hthm.1 2 (sampleStream classDescBytes) _ classDescA sample_readTCNormalClassDesc
    exact ⟨aF, aC, aP, hall⟩
  · exact ⟨_, _, hthm.2.2 2 (sampleStream (classDescBytes.take 8)) _ _ _ _ rfl rfl⟩

end Registration

/-! ## Registration of an object -/

section ObjectRegistration
variable {U F C P D X : Type}

theorem readTCObjectLoop_appendsOnly {E : Env U F C P D X}
    (hD : ∀ c, AppendsOnly (E.readTCClassData c)) (classes : List (TCClassDesc U F C P)) :
    ∀ (i : Nat) (acc : List D), AppendsOnly (readTCObjectLoop E classes i acc) := by
  intro i
  induction i with
  | zero =>
    intro acc s v t h
    simp only [readTCObjectLoop, Prod.mk.injEq] at h
    exact ⟨[], by rw [← h.2]; simp⟩
  | succ i ih =>
    intro acc s v t h
    simp only [readTCObjectLoop] at h
    split at h
    · simp at h
    · rename_i c hc
      split at h
      · simp at h
      · rename_i classData s1 hR
        obtain ⟨a1, h1⟩ := hD c _ _ _ hR
        obtain ⟨a2, h2⟩ := ih _ _ _ _ h
        exact ⟨a1 ++ a2, by rw [h2, h1, List.append_assoc]⟩

/-- C11: a successful `readTCObject` appends the object to the handle table
once, whether its class pointer is null or not: its entry comes after whatever
the class pointer registered and before whatever `FindClassBag` and the
field-data blocks register; the field-data loop starts from a state that
already holds the entry. Given sub-readers that only append to the table. -/
theorem readTCObject_registration (E : Env U F C P D X)
    (hPointer : AppendsOnly E.readTCClassPointer)
    (hBag : ∀ p, AppendsOnly (E.FindClassBag p))
    (hData : ∀ c, AppendsOnly (E.readTCClassData c))
    (s t : ObjectStream U P X) (o : TCObject P D)
    (h : readTCObject E s = (.ok o, t)) :
    ∃ s1 addedPointer addedLater,
      E.readTCClassPointer (s.ReadN 1).2 = (.ok o.ClassPointer, s1) ∧
      s1.references = s.references ++ addedPointer ∧
      t.references
        = s.references ++ addedPointer ++ [Reference.object o.ClassPointer] ++ addedLater ∧
      ((E.TCClassPointer_Flag o.ClassPointer = JAVA_TC_NULL ∧ addedLater = [] ∧
          o.ClassDatas = []) ∨
        (E.TCClassPointer_Flag o.ClassPointer ≠ JAVA_TC_NULL ∧
          ∃ bag s3 addedBag addedData,
            E.FindClassBag o.ClassPointer (s1.AddReference (Reference.object o.ClassPointer)).2
              = (.ok bag, s3) ∧
            s3.references
              = s.references ++ addedPointer ++ [Reference.object o.ClassPointer] ++ addedBag ∧
            readTCObjectLoop E bag.Classes bag.Classes.length [] s3 = (.ok o.ClassDatas, t) ∧
            t.references = s3.references ++ addedData ∧
            addedLater = addedBag ++ addedData)) := by
  obtain ⟨cp, s1, hP, hcp, _, hrest⟩ := readTCObject_ok_inv h
  subst hcp
  obtain ⟨aP, haP⟩ := hPointer _ _ _ hP
  rw [ReadN_references] at haP
  rcases hrest with ⟨hnull, hnil, ht⟩ | ⟨hnn, bag, s3, hB, hL⟩
  · refine ⟨s1, aP, [], hP, haP, ?_, Or.inl ⟨hnull, rfl, hnil⟩⟩
    rw [ht]
    simp [ObjectStream.AddReference, haP]
  · obtain ⟨aB, haB⟩ := hBag _ _ _ _ hB
    obtain ⟨aD, haD⟩ := readTCObjectLoop_appendsOnly hData _ _ _ _ _ _ hL
    have h3 : s3.references
        = s.references ++ aP ++ [Reference.object o.ClassPointer] ++ aB := by
      rw [haB]
      simp [ObjectStream.AddReference, haP]
    refine ⟨s1, aP, aB ++ aD, hP, haP, ?_, Or.inr ⟨hnn, bag, s3, aB, aD, hB, h3, hL, haD, rfl⟩⟩
    rw [haD, h3]
    simp

theorem sampleEnv_FindClassBag_appendsOnly (p : Option Nat) :
    AppendsOnly (sampleEnv.FindClassBag p) := by
  intro s v t h
  have h1 : sampleFindClassBag p s = (.ok v, t) := h
  unfold sampleFindClassBag at h1
  split at h1
  · simp only [Prod.mk.injEq] at h1
    exact ⟨[], by rw [← h1.2]; simp⟩
  · split at h1
    · simp only [Prod.mk.injEq] at h1
      exact ⟨[], by rw [← h1.2]; simp⟩
    · simp at h1

/-- Witness of C11: the sample object is registered after the three class
descriptors already in the table. -/
theorem readTCObject_registration_witness :
    ∃ addedPointer addedLater,
      threeClasses ++ [Reference.object (some 0x7E0002)]
        = threeClasses ++ addedPointer ++ [Reference.object objectL.ClassPointer] ++ addedLater := by
  obtain ⟨_, aP, aL, _, _, hall, _⟩ := readTCObject_registration sampleEnv
    (liftParser_keepsReferences parsePointer).appendsOnly sampleEnv_FindClassBag_appendsOnly
    (fun _ => (liftParser_keepsReferences parseClassData).appendsOnly) objectStream _ objectL
    sample_readTCObject
  exact ⟨aP, aL, hall⟩

end ObjectRegistration

/-! ## The annotation block -/

section AnnotationBlock
variable {U F C P D X : Type}

theorem readTCAnnotationLoop_skip {E : Env U F C P D X} :
    ∀ (cs acc : List C) (s t : ObjectStream U P X) (fuel : Nat),
      HoldsContents E cs s t → cs.length < fuel →
      readTCAnnotationLoop E fuel acc s
        = readTCAnnotationLoop E (fuel - cs.length) (acc ++ cs) t := by
  intro cs
  induction cs with
  | nil =>
    intro acc s t fuel h _
    simp only [HoldsContents] at h
    subst h
    simp
  | cons c cs ih =>
    intro acc s t fuel h hfuel
    simp only [HoldsContents] at h
    obtain ⟨b, rest, s1, hrem, hb, hR, hrun⟩ := h
    obtain ⟨f, hf⟩ : ∃ f, fuel = f + 1 := ⟨fuel - 1, by simp only [List.length_cons] at hfuel; omega⟩
    subst hf
    simp only [List.length_cons] at hfuel
    rw [readTCAnnotationLoop_content E f acc hrem hb]
    simp only [BoundedReader.andThen, boundedOf, hR]
    rw [ih (acc ++ [c]) s1 t f hrun (by omega)]
    simp only [List.length_cons, Nat.add_sub_add_right, List.append_assoc, List.singleton_append]

/-- C12: on a stream that holds the content records `cs` followed by the
`TC_ENDBLOCKDATA` byte, `readTCAnnotation` (with a bound above the number of
records) returns exactly `cs`, in stream order, and stops one byte after the
end marker, which is not among the contents; when the first byte is
`TC_ENDBLOCKDATA` it returns the empty list and advances by exactly 1. An
error of `readTCContent` after the records `cs`, or the end of the stream
there, makes it return an error and no list. -/
theorem readTCAnnotation_reads_block (E : Env U F C P D X) :
    (∀ (cs : List C) (s t : ObjectStream U P X) (rest : List Byte) (fuel : Nat),
      HoldsContents E cs s t → t.remaining = JAVA_TC_ENDBLOCKDATA :: rest → cs.length < fuel →
      readTCAnnotation E fuel s = some (.ok cs, t.advance 1 t.references)) ∧
    (∀ (s : ObjectStream U P X) (rest : List Byte) (fuel : Nat),
      s.remaining = JAVA_TC_ENDBLOCKDATA :: rest → 0 < fuel →
      readTCAnnotation E fuel s = some (.ok [], s.advance 1 s.references)) ∧
    (∀ (cs : List C) (s t t' : ObjectStream U P X) (b : Byte) (rest : List Byte) (e : Error)
        (fuel : Nat),
      HoldsContents E cs s t → t.remaining = b :: rest → b ≠ JAVA_TC_ENDBLOCKDATA →
      E.readTCContent t = (.error e, t') → cs.length < fuel →
      readTCAnnotation E fuel s = some (.error e, t')) ∧
    (∀ (cs : List C) (s t : ObjectStream U P X) (fuel : Nat),
      HoldsContents E cs s t → t.remaining = [] → cs.length < fuel →
      ∃ e, readTCAnnotation E fuel s = some (.error e, t)) := by
  refine ⟨?_, ?_, ?_, ?_⟩
  · intro cs s t rest fuel hrun hend hfuel
    unfold readTCAnnotation
    rw [readTCAnnotationLoop_skip cs [] s t fuel hrun hfuel]
    obtain ⟨f, hf⟩ : ∃ f, fuel - cs.length = f + 1 := ⟨fuel - cs.length - 1, by omega⟩
    rw [hf, readTCAnnotationLoop_end E f _ hend]
    simp
  · intro s rest fuel hend hfuel
    unfold readTCAnnotation
    obtain ⟨f, hf⟩ : ∃ f, fuel = f + 1 := ⟨fuel - 1, by omega⟩
    rw [hf, readTCAnnotationLoop_end E f _ hend]
  · intro cs s t t' b rest e fuel hrun hrem hb hR hfuel
    unfold readTCAnnotation
    rw [readTCAnnotationLoop_skip cs [] s t fuel hrun hfuel]
    obtain ⟨f, hf⟩ : ∃ f, fuel - cs.length = f + 1 := ⟨fuel - cs.length - 1, by omega⟩
    rw [hf, readTCAnnotationLoop_content E f _ hrem hb]
    simp only [BoundedReader.andThen, boundedOf, hR]
  · intro cs s t fuel hrun hrem hfuel
    unfold readTCAnnotation
    rw [readTCAnnotationLoop_skip cs [] s t fuel hrun hfuel]
    obtain ⟨f, hf⟩ : ∃ f, fuel - cs.length = f + 1 := ⟨fuel - cs.length - 1, by omega⟩
    rw [hf, readTCAnnotationLoop_nil E f _ hrem]
    exact ⟨_, rfl⟩

/-- Witness of C12: two null records, the end marker and one more byte. -/
theorem readTCAnnotation_reads_block_witness :
    readTCAnnotation sampleEnv 3 (sampleStream [0x70, 0x70, 0x78, 0xAA])
      = some (.ok [TCNull.mk, TCNull.mk],
          { bs := [0x70, 0x70, 0x78, 0xAA], current := 3, references := [] }) :=
  (readTCAnnotation_reads_block sampleEnv).1 [TCNull.mk, TCNull.mk]
    (sampleStream [0x70, 0x70, 0x78, 0xAA])
    { bs := [0x70, 0x70, 0x78, 0xAA], current := 2, references := [] } [0xAA] 3
    ⟨0x70, [0x70, 0x78, 0xAA], _, rfl, by decide, rfl,
      ⟨0x70, [0x78, 0xAA], _, rfl, by decide, rfl, rfl⟩⟩
    rfl (by decide)

end AnnotationBlock

/-! ## The flag byte, the null record -/

section FlagByte
variable {U F C P D X : Type}

theorem ToBytes_flag_position (E : Env U F C P D X) (d : TCClassDesc U F C P) :
    (d.ToBytes E)[1 + (E.TCUtf_ToBytes d.ClassName).length + 8]? = some d.ClassDescFlags := by
  have h8 := NumberToBytes_int64_length d.SerialVersionUID
  have hl : ([JAVA_TC_CLASSDESC] ++ E.TCUtf_ToBytes d.ClassName
      ++ NumberToBytes_int64 d.SerialVersionUID).length
        = 1 + (E.TCUtf_ToBytes d.ClassName).length + 8 := by
    simp only [List.length_append, List.length_singleton, h8]
  have e : d.ToBytes E
      = ([JAVA_TC_CLASSDESC] ++ E.TCUtf_ToBytes d.ClassName
          ++ NumberToBytes_int64 d.SerialVersionUID)
        ++ (d.ClassDescFlags :: (NumberToBytes_uint16 (uint16OfInt d.Fields.length)
          ++ (d.Fields.flatMap E.TCFieldDesc_ToBytes
            ++ List.flatMap d.ClassAnnotation E.TCContent_ToBytes
            ++ [JAVA_TC_ENDBLOCKDATA] ++ E.TCClassPointer_ToBytes d.SuperClassPointer))) := by
    rw [ToBytes_eq_concat]
    simp only [List.append_assoc, List.singleton_append, List.cons_append, List.nil_append]
  rw [e, ← hl, List.getElem?_append_right (le_refl _)]
  simp

/-- C13: for every byte `b`, when the byte at the position that follows the
version id is `b` and `readTCNormalClassDesc` succeeds, the descriptor has
`ClassDescFlags = b`, and `ToBytes` emits `b` at the flag position (after the
tag byte, the class name and the eight bytes of the version id). -/
theorem flag_byte_passes_through (E : Env U F C P D X) (fuel : Nat)
    (s s1 s2 t : ObjectStream U P X) (d : TCClassDesc U F C P) (name : U) (uid : Int) (b : Byte)
    (hU : E.readUTF (s.ReadN 1).2 = (.ok name, s1))
    (hV : readSerialVersionUID s1 = (.ok uid, s2))
    (hb : s2.bs[s2.current]? = some b)
    (h : readTCNormalClassDesc E fuel s = some (.ok d, t)) :
    d.ClassDescFlags = b ∧
      (d.ToBytes E)[1 + (E.TCUtf_ToBytes d.ClassName).length + 8]? = some b := by
  obtain ⟨name', s1', uid', s2', fl, s4, fields, s5, contents, s6, p,
    hU', hV', hFl, _, _, _, hd⟩ := readTCNormalClassDesc_ok_inv h
  rw [hU] at hU'
  simp only [Prod.mk.injEq, Except.ok.injEq] at hU'
  obtain ⟨e1, e2⟩ := hU'
  subst e1 e2
  rw [hV] at hV'
  simp only [Prod.mk.injEq, Except.ok.injEq] at hV'
  obtain ⟨e1, e2⟩ := hV'
  subst e1 e2
  obtain ⟨hle, hfl, _⟩ := ReadN_ok hFl
  simp only [ObjectStream.AddReference] at hle hfl
  have hlt : s2.current < s2.bs.length := by omega
  rw [List.getElem?_eq_getElem hlt] at hb
  have hflag : fl.headD 0 = b := by
    rw [hfl, List.drop_eq_getElem_cons hlt, Option.some.inj hb]
    simp
  have hdf : d.ClassDescFlags = b := by
    rw [hd]
    exact hflag
  refine ⟨hdf, ?_⟩
  rw [ToBytes_flag_position, hdf]

/-- The sample class descriptor with the flag byte `0xF0`, which has none of
the four defined bits. -/
theorem sample_readTCNormalClassDesc_flag :
    readTCNormalClassDesc sampleEnv 2 (sampleStream (classDescBytes.set 12 0xF0))
      = some (.ok { classDescA with ClassDescFlags := 0xF0 },
          { bs := classDescBytes.set 12 0xF0, current := 22,
            references := [Reference.classDesc [0x41] 1] }) := by
  rfl

/-- Witness of C13: the flag byte `0xF0` is kept by the decode and emitted by
the encoding of the result. -/
theorem flag_byte_passes_through_witness :
    readTCNormalClassDesc sampleEnv 2 (sampleStream (classDescBytes.set 12 0xF0))
        = some (.ok { classDescA with ClassDescFlags := 0xF0 },
            { bs := classDescBytes.set 12 0xF0, current := 22,
              references := [Reference.classDesc [0x41] 1] }) ∧
      (TCClassDesc.ToBytes sampleEnv { classDescA with ClassDescFlags := 0xF0 })[1
        + (sampleEnv.TCUtf_ToBytes [0x41]).length + 8]? = some 0xF0 :=
  ⟨sample_readTCNormalClassDesc_flag,
    (flag_byte_passes_through sampleEnv 2 (sampleStream (classDescBytes.set 12 0xF0)) _ _ _
      { classDescA with ClassDescFlags := 0xF0 } [0x41] 1 0xF0 rfl rfl (by decide)
      sample_readTCNormalClassDesc_flag).2⟩

/-- C14: `TCNull.ToBytes` is the one byte `TC_NULL` (`0x70`); on a stream whose
next byte is `TC_NULL`, `readTCNull` advances the position by exactly 1, leaves
buffer and handle table alone, and returns a value whose `ToBytes` is the byte
it consumed. -/
theorem TCNull_one_byte :
    (∀ n : TCNull, n.ToBytes = [JAVA_TC_NULL]) ∧ JAVA_TC_NULL.val = 0x70 ∧
      ∀ s : ObjectStream U P X, s.bs[s.current]? = some JAVA_TC_NULL →
        (readTCNull s).2 = s.advance 1 s.references ∧
        (readTCNull s).1.ToBytes = consumed s (readTCNull s).2 := by
  refine ⟨fun _ => rfl, rfl, ?_⟩
  intro s hs
  have hlt : s.current < s.bs.length := by
    by_contra hge
    rw [List.getElem?_eq_none (by omega)] at hs
    simp at hs
  have hgt : s.bs[s.current] = JAVA_TC_NULL := by
    rw [List.getElem?_eq_getElem hlt] at hs
    exact Option.some.inj hs
  have hT := ReadN_of_le s 1 (by omega)
  have h2 : (readTCNull s).2 = s.advance 1 s.references := by
    simp only [readTCNull, hT, ObjectStream.advance]
  refine ⟨h2, ?_⟩
  rw [h2]
  simp only [TCNull.ToBytes, consumed, ObjectStream.advance, add_tsub_cancel_left]
  rw [List.drop_eq_getElem_cons hlt, hgt]
  simp

/-- Witness of C14: a null record followed by one more byte. -/
theorem TCNull_one_byte_witness :
    (readTCNull (sampleStream [0x70, 0xAA])).2
        = (sampleStream [0x70, 0xAA]).advance 1 [] ∧
      (readTCNull (sampleStream [0x70, 0xAA])).1.ToBytes
        = consumed (sampleStream [0x70, 0xAA]) (readTCNull (sampleStream [0x70, 0xAA])).2 :=
  TCNull_one_byte.2.2 (sampleStream [0x70, 0xAA]) (by decide)

end FlagByte

/-! ## Errors of the object reader -/

section ObjectErrors
variable {U F C P D X : Type}

theorem take_succ_reverse {α : Type} (l : List α) (i : Nat) (h : i < l.length) :
    (l.take (i + 1)).reverse = l[i] :: (l.take i).reverse := by
  rw [List.take_succ, List.getElem?_eq_getElem h]
  simp

theorem readTCObjectLoop_error_after {E : Env U F C P D X} (classes : List (TCClassDesc U F C P))
    (c : TCClassDesc U F C P) (todo : List (TCClassDesc U F C P)) (e : Error)
    (u u' : ObjectStream U P X) (hfail : E.readTCClassData c u = (.error e, u')) :
    ∀ (done : List (TCClassDesc U F C P)) (ds : List D) (s : ObjectStream U P X) (i : Nat)
      (acc : List D),
      ReadsBlocks E done ds s u → i ≤ classes.length →
      (classes.take i).reverse = done ++ c :: todo →
      readTCObjectLoop E classes i acc s = (.error e, u') := by
  intro done
  induction done with
  | nil =>
    intro ds s i acc hrun hi hrev
    cases ds with
    | cons d ds => simp [ReadsBlocks] at hrun
    | nil =>
      simp only [ReadsBlocks] at hrun
      subst hrun
      cases i with
      | zero => simp at hrev
      | succ i =>
        rw [take_succ_reverse classes i (by omega)] at hrev
        simp only [List.nil_append, List.cons.injEq] at hrev
        simp only [readTCObjectLoop, List.getElem?_eq_getElem (show i < classes.length by omega),
          hrev.1, hfail]
  | cons c0 done ih =>
    intro ds s i acc hrun hi hrev
    cases ds with
    | nil => simp [ReadsBlocks] at hrun
    | cons d ds =>
      simp only [ReadsBlocks] at hrun
      obtain ⟨s1, hR, hrun'⟩ := hrun
      cases i with
      | zero => simp at hrev
      | succ i =>
        rw [take_succ_reverse classes i (by omega)] at hrev
        simp only [List.cons_append, List.cons.injEq] at hrev
        simp only [readTCObjectLoop, List.getElem?_eq_getElem (show i < classes.length by omega),
          hrev.1, hR]
        exact ih ds s1 i (acc ++ [d]) hrun' (by omega) hrev.2

/-- C15: an error of `readTCClassPointer` is returned by `readTCObject`, which
ends in the state the pointer reader left (nothing is registered and nothing
more is read); an error of `FindClassBag`, or of `readTCClassData` for some
class of the bag after the blocks of the classes before it (in reading order)
were read, is returned as well, with no object. -/
theorem readTCObject_errors_are_terminal (E : Env U F C P D X) :
    (∀ (s s1 : ObjectStream U P X) (e : Error),
      E.readTCClassPointer (s.ReadN 1).2 = (.error e, s1) →
      readTCObject E s = (.error e, s1)) ∧
    (∀ (s s1 s3 : ObjectStream U P X) (cp : P) (e : Error),
      E.readTCClassPointer (s.ReadN 1).2 = (.ok cp, s1) →
      E.TCClassPointer_Flag cp ≠ JAVA_TC_NULL →
      E.FindClassBag cp (s1.AddReference (Reference.object cp)).2 = (.error e, s3) →
      readTCObject E s = (.error e, s3)) ∧
    (∀ (s s1 s3 u u' : ObjectStream U P X) (cp : P) (bag : ClassBag U F C P)
        (done todo : List (TCClassDesc U F C P)) (c : TCClassDesc U F C P) (ds : List D)
        (e : Error),
      E.readTCClassPointer (s.ReadN 1).2 = (.ok cp, s1) →
      E.TCClassPointer_Flag cp ≠ JAVA_TC_NULL →
      E.FindClassBag cp (s1.AddReference (Reference.object cp)).2 = (.ok bag, s3) →
      bag.Classes.reverse = done ++ c :: todo →
      ReadsBlocks E done ds s3 u →
      E.readTCClassData c u = (.error e, u') →
      readTCObject E s = (.error e, u')) := by
  refine ⟨?_, ?_, ?_⟩
  · intro s s1 e hP
    unfold readTCObject
    simp only [hP]
  · intro s s1 s3 cp e hP hflag hB
    unfold readTCObject
    simp only [hP, if_neg hflag, hB]
  · intro s s1 s3 u u' cp bag done todo c ds e hP hflag hB hrev hrun hfail
    have hL := readTCObjectLoop_error_after bag.Classes c todo e u u' hfail done ds s3
      bag.Classes.length [] hrun (le_refl _) (by rw [List.take_length]; exact hrev)
    unfold readTCObject
    simp only [hP, if_neg hflag, hB, hL]

/-- Witness of C15: a class pointer with the unknown tag `0x99`, a
back-reference to a handle that is not in the table, and a stream that ends
after the second of three field-data blocks. -/
theorem readTCObject_errors_are_terminal_witness :
    readTCObject sampleEnv (sampleStream [0x73, 0x99])
        = (.error (.external "malformed record"),
            { bs := [0x73, 0x99], current := 1, references := [] }) ∧
      readTCObject sampleEnv (sampleStream [0x73, 0x71, 0x00, 0x7E, 0x00, 0x09])
        = (.error (.external "unresolved handle"),
            { bs := [0x73, 0x71, 0x00, 0x7E, 0x00, 0x09], current := 6,
              references := [Reference.object (some 0x7E0009)] }) ∧
      readTCObject sampleEnv { objectStream with bs := objectStream.bs.take 8 }
        = (.error (.external "malformed record"),
            { bs := objectStream.bs.take 8, current := 8,
              references := threeClasses ++ [Reference.object (some 0x7E0002)] }) :=
  ⟨(readTCObject_errors_are_terminal sampleEnv).1 (sampleStream [0x73, 0x99]) _ _ rfl,
    (readTCObject_errors_are_terminal sampleEnv).2.1
      (sampleStream [0x73, 0x71, 0x00, 0x7E, 0x00, 0x09]) _ _ (some 0x7E0009) _ rfl (by decide)
      rfl,
    (readTCObject_errors_are_terminal sampleEnv).2.2
      { objectStream with bs := objectStream.bs.take 8 } _ _ _ _ (some 0x7E0002) bagL
      [bagL.Classes.getD 2 classDescA, bagL.Classes.getD 1 classDescA] []
      (bagL.Classes.getD 0 classDescA) [0xAA, 0xBB] _ rfl (by decide) rfl rfl
      ⟨_, rfl, ⟨_, rfl, rfl⟩⟩ rfl⟩

end ObjectErrors

/-! ## Flags -/

section Flags
variable {U F C P : Type}

theorem land_eq_right_iff (a f : Nat) :
    a &&& f = f ↔ ∀ i, f.testBit i = true → a.testBit i = true := by
  constructor
  · intro h i hi
    have := congrArg (fun n => n.testBit i) h
    simp only [Nat.testBit_land, hi, Bool.and_true] at this
    exact this
  · intro h
    apply Nat.eq_of_testBit_eq
    intro i
    rw [Nat.testBit_land]
    cases hf : f.testBit i with
    | false => simp
    | true => simp [h i hf]

theorem HasFlag_iff_land (d : TCClassDesc U F C P) (f : Byte) :
    d.HasFlag f = true ↔ d.ClassDescFlags.val &&& f.val = f.val := by
  unfold TCClassDesc.HasFlag
  exact decide_eq_true_iff

theorem HasFlag_two_pow (d : TCClassDesc U F C P) (k : Nat) (hk : k < 8) :
    d.HasFlag (Fin.ofNat (2 ^ k)) = true ↔ d.ClassDescFlags.val.testBit k = true := by
  have hlt : 2 ^ k < 256 := by
    have : (2 : Nat) ^ k < 2 ^ 8 := Nat.pow_lt_pow_right (by decide) hk
    simpa using this
  have hval : (Fin.ofNat (2 ^ k) : Byte).val = 2 ^ k := by
    show 2 ^ k % 256 = 2 ^ k
    exact Nat.mod_eq_of_lt hlt
  rw [HasFlag_iff_land, land_eq_right_iff, hval]
  constructor
  · intro h
    exact h k (by simp)
  · intro h i hi
    have : k = i := by simpa [Nat.testBit_two_pow] using hi
    subst this
    exact h

/-- C16: `HasFlag(f)` is true exactly when every bit set in `f` is also set in
`ClassDescFlags`; for a flag with the single bit `k` it is true exactly when
bit `k` of `ClassDescFlags` is set, whatever the other bits; `HasFlag(0)` is
true for every descriptor. -/
theorem HasFlag_iff_bits :
    (∀ (d : TCClassDesc U F C P) (f : Byte),
      d.HasFlag f = true ↔ ∀ i, f.val.testBit i = true → d.ClassDescFlags.val.testBit i = true) ∧
    (∀ (d : TCClassDesc U F C P) (k : Fin 8),
      d.HasFlag (Fin.ofNat (2 ^ k.val)) = true ↔ d.ClassDescFlags.val.testBit k.val = true) ∧
    (∀ d : TCClassDesc U F C P, d.HasFlag 0 = true) := by
  refine ⟨?_, ?_, ?_⟩
  · intro d f
    rw [HasFlag_iff_land, land_eq_right_iff]
  · intro d k
    exact HasFlag_two_pow d k.val k.isLt
  · intro d
    rw [HasFlag_iff_land]
    simp

theorem HasFlag_defined_flags (d : TCClassDesc U F C P) :
    d.HasFlag JAVA_SC_SERIALIZABLE = d.ClassDescFlags.val.testBit 1 ∧
      d.HasFlag JAVA_SC_WRITE_METHOD = d.ClassDescFlags.val.testBit 0 ∧
      d.HasFlag JAVA_SC_EXTERNALIZABLE = d.ClassDescFlags.val.testBit 2 ∧
      d.HasFlag JAVA_SC_BLOCK_DATA = d.ClassDescFlags.val.testBit 3 := by
  refine ⟨?_, ?_, ?_, ?_⟩
  · exact Bool.eq_iff_iff.mpr (HasFlag_two_pow d 1 (by decide))
  · exact Bool.eq_iff_iff.mpr (HasFlag_two_pow d 0 (by decide))
  · exact Bool.eq_iff_iff.mpr (HasFlag_two_pow d 2 (by decide))
  · exact Bool.eq_iff_iff.mpr (HasFlag_two_pow d 3 (by decide))

theorem FlagString_eq_setFlagNames (d : TCClassDesc U F C P) :
    d.FlagString = "|".intercalate (setFlagNames d.ClassDescFlags) := by
  obtain ⟨h1, h0, h2, h3⟩ := HasFlag_defined_flags d
  unfold TCClassDesc.FlagString setFlagNames
  rw [h1, h0, h2, h3]
  cases d.ClassDescFlags.val.testBit 1 <;> cases d.ClassDescFlags.val.testBit 0 <;>
    cases d.ClassDescFlags.val.testBit 2 <;> cases d.ClassDescFlags.val.testBit 3 <;> rfl

theorem testBit_mod_sixteen (n i : Nat) (hi : i < 4) : n.testBit i = (n % 16).testBit i := by
  have : (16 : Nat) = 2 ^ 4 := by norm_num
  rw [this, Nat.testBit_mod_two_pow]
  simp [hi]

theorem setFlagNames_mod (b : Byte) :
    setFlagNames b = setFlagNames (Fin.ofNat (b.val % 16)) := by
  have hval : (Fin.ofNat (b.val % 16) : Byte).val = b.val % 16 := by
    show b.val % 16 % 256 = b.val % 16
    exact Nat.mod_eq_of_lt (by omega)
  unfold setFlagNames
  rw [hval, ← testBit_mod_sixteen b.val 0 (by decide), ← testBit_mod_sixteen b.val 1 (by decide),
    ← testBit_mod_sixteen b.val 2 (by decide), ← testBit_mod_sixteen b.val 3 (by decide)]

/-- C18: `FlagString` is the names of those of the four defined flags whose bit
is set, in the order `SC_SERIALIZABLE`, `SC_WRITE_METHOD`, `SC_EXTERNALIZABLE`,
`SC_BLOCK_DATA`, joined by `|`; it is empty when none of the four bits is set;
it depends on the four low bits only; with the serializable and block-data
bits set (and neither of the other two) it is `SC_SERIALIZABLE|SC_BLOCK_DATA`. -/
theorem FlagString_names_set_flags :
    (∀ d : TCClassDesc U F C P,
      d.FlagString = "|".intercalate (setFlagNames d.ClassDescFlags)) ∧
    (∀ d : TCClassDesc U F C P, d.ClassDescFlags.val % 16 = 0 → d.FlagString = "") ∧
    (∀ d d' : TCClassDesc U F C P,
      d.ClassDescFlags.val % 16 = d'.ClassDescFlags.val % 16 → d.FlagString = d'.FlagString) ∧
    (∀ d : TCClassDesc U F C P, d.ClassDescFlags.val % 16 = 10 →
      d.FlagString = "SC_SERIALIZABLE|SC_BLOCK_DATA") := by
  refine ⟨FlagString_eq_setFlagNames, ?_, ?_, ?_⟩
  · intro d h
    rw [FlagString_eq_setFlagNames, setFlagNames_mod, h]
    rfl
  · intro d d' h
    rw [FlagString_eq_setFlagNames, FlagString_eq_setFlagNames, setFlagNames_mod,
      setFlagNames_mod d'.ClassDescFlags, h]
  · intro d h
    rw [FlagString_eq_setFlagNames, setFlagNames_mod, h]
    rfl

/-- Witness of C18: the flag byte `0xFA` has the serializable and block-data
bits and all four undefined bits. -/
theorem FlagString_names_set_flags_witness :
    TCClassDesc.FlagString { classDescA with ClassDescFlags := 0xFA }
      = "SC_SERIALIZABLE|SC_BLOCK_DATA" :=
  FlagString_names_set_flags.2.2.2 { classDescA with ClassDescFlags := 0xFA } (by decide)

end Flags

/-! ## The version id -/

section VersionId
variable {U P X : Type}

theorem int64OfUint64_of_lt (u : Nat) (h : u < 2 ^ 64) :
    int64OfUint64 u = if u < 2 ^ 63 then (u : Int) else (u : Int) - 2 ^ 64 := by
  unfold int64OfUint64
  rw [Nat.mod_eq_of_lt h]

theorem bigEndianValue_top_bit (bs : List Byte) (h : bs.length = 8) :
    bigEndianValue bs < 2 ^ 63 ↔ (bs.headD 0).val < 128 := by
  match bs, h with
  | b :: rest, h =>
    have hr : rest.length = 7 := by simpa using h
    have hlt := bigEndianValue_lt rest
    rw [hr] at hlt
    rw [bigEndianValue_cons, hr]
    simp only [List.headD_cons]
    norm_num at hlt ⊢
    omega

/-- C17: when at least 8 bytes remain, `readSerialVersionUID` consumes exactly
8 bytes and returns the signed 64-bit two's-complement value of their
big-endian reading `u` (`u` or `u - 2^64`, within the `int64` range; negative
exactly when the top bit of the first byte is set), and the big-endian
encoding of the result is the same 8 bytes; eight `0xFF` bytes give `-1`; when
fewer than 8 bytes remain it returns an error. -/
theorem readSerialVersionUID_decodes :
    (∀ s : ObjectStream U P X, s.current + 8 ≤ s.bs.length →
      ∃ v : Int, readSerialVersionUID s = (.ok v, s.advance 8 s.references) ∧
        (v = (bigEndianValue ((s.bs.drop s.current).take 8) : Int) ∨
          v = (bigEndianValue ((s.bs.drop s.current).take 8) : Int) - 2 ^ 64) ∧
        -2 ^ 63 ≤ v ∧ v < 2 ^ 63 ∧
        (v < 0 ↔ 128 ≤ (((s.bs.drop s.current).take 8).headD 0).val) ∧
        NumberToBytes_int64 v = (s.bs.drop s.current).take 8) ∧
    readSerialVersionUID (sampleStream [0xFF, 0xFF, 0xFF, 0xFF, 0xFF, 0xFF, 0xFF, 0xFF])
      = (.ok (-1), (sampleStream [0xFF, 0xFF, 0xFF, 0xFF, 0xFF, 0xFF, 0xFF, 0xFF]).advance 8 []) ∧
    (∀ s : ObjectStream U P X, s.bs.length < s.current + 8 →
      ∃ e, readSerialVersionUID s = (.error e, s)) := by
  refine ⟨?_, rfl, ?_⟩
  · intro s hle
    have hlen : ((s.bs.drop s.current).take 8).length = 8 := take_drop_length hle
    have hu : BigEndian_Uint64 ((s.bs.drop s.current).take 8)
        = bigEndianValue ((s.bs.drop s.current).take 8) := by
      unfold BigEndian_Uint64
      rw [List.take_of_length_le (by omega)]
    have hlt := bigEndianValue_lt ((s.bs.drop s.current).take 8)
    rw [hlen] at hlt
    have h64 : bigEndianValue ((s.bs.drop s.current).take 8) < 2 ^ 64 := by
      norm_num at hlt ⊢
      exact hlt
    have htop := bigEndianValue_top_bit _ hlen
    have hrt := NumberToBytes_int64_Uint64 _ hlen
    rw [hu] at hrt
    refine ⟨int64OfUint64 (bigEndianValue ((s.bs.drop s.current).take 8)), ?_, ?_, ?_, ?_, ?_, hrt⟩
    · unfold readSerialVersionUID
      rw [ReadN_of_le s 8 hle]
      simp only [hu, ObjectStream.advance]
    · rw [int64OfUint64_of_lt _ h64]
      split
      · exact Or.inl rfl
      · exact Or.inr rfl
    · rw [int64OfUint64_of_lt _ h64]
      split <;> omega
    · rw [int64OfUint64_of_lt _ h64]
      split <;> omega
    · rw [int64OfUint64_of_lt _ h64]
      split <;> omega
  · intro s hlt
    exact ⟨_, readSerialVersionUID_of_lt s hlt⟩

/-- Witness of C17: the version id `0x8000000000000001` is negative. -/
theorem readSerialVersionUID_decodes_witness :
    ∃ v : Int, readSerialVersionUID (sampleStream [0x80, 0, 0, 0, 0, 0, 0, 1, 0x02])
        = (.ok v, (sampleStream [0x80, 0, 0, 0, 0, 0, 0, 1, 0x02]).advance 8 []) ∧
      (v = (bigEndianValue [0x80, 0, 0, 0, 0, 0, 0, 1] : Int) ∨
        v = (bigEndianValue [0x80, 0, 0, 0, 0, 0, 0, 1] : Int) - 2 ^ 64) ∧
      -2 ^ 63 ≤ v ∧ v < 2 ^ 63 ∧ (v < 0 ↔ 128 ≤ ((0x80 : Byte)).val) ∧
      NumberToBytes_int64 v = [0x80, 0, 0, 0, 0, 0, 0, 1] :=
  readSerialVersionUID_decodes.1 (sampleStream [0x80, 0, 0, 0, 0, 0, 0, 1, 0x02]) (by decide)

end VersionId

/-! ## Failure after registration, and termination of the annotation loop -/

section Atomicity
variable {U F C P D X : Type}

/-- C19: when the class name and the version id are read and no byte remains
for the flag byte, `readTCNormalClassDesc` returns an error and no descriptor,
and the handle table holds one more entry than before the call: the
descriptor as it was registered, with its name and version id and nothing
else. Given that `readUTF` leaves the handle table alone. -/
theorem readTCNormalClassDesc_not_atomic (E : Env U F C P D X) (hUTF : KeepsReferences E.readUTF)
    (fuel : Nat) (s s1 s2 : ObjectStream U P X) (name : U) (uid : Int)
    (hU : E.readUTF (s.ReadN 1).2 = (.ok name, s1))
    (hV : readSerialVersionUID s1 = (.ok uid, s2))
    (hend : s2.bs.length ≤ s2.current) :
    ∃ e t, readTCNormalClassDesc E fuel s = some (.error e, t) ∧
      t.references = s.references ++ [Reference.classDesc name uid] ∧
      t.references.length = s.references.length + 1 := by
  have e1 : s1.references = s.references := by
    have := hUTF (s.ReadN 1).2
    rw [hU, ReadN_references] at this
    exact this
  have e2 : s2.references = s.references := by
    have := readSerialVersionUID_references s1
    rw [hV] at this
    exact this.trans e1
  have hF := ReadN_of_lt (s2.AddReference (Reference.classDesc name uid)).2 1
    (by simp only [ObjectStream.AddReference]; omega)
  refine ⟨.errorf "read JAVA_TC_CLASSDESC failed on index %v" s2.current,
    (s2.AddReference (Reference.classDesc name uid)).2, ?_, ?_, ?_⟩
  · unfold readTCNormalClassDesc
    simp only [hU, hV, hF]
    rfl
  · simp [ObjectStream.AddReference, e2]
  · simp [ObjectStream.AddReference, e2]

/-- Witness of C19: the sample class descriptor cut right after its version
id. -/
theorem readTCNormalClassDesc_not_atomic_witness :
    ∃ e t, readTCNormalClassDesc sampleEnv 2 (sampleStream (classDescBytes.take 12))
        = some (.error e, t) ∧
      t.references = [] ++ [Reference.classDesc [0x41] 1] ∧ t.references.length = 0 + 1 :=
  readTCNormalClassDesc_not_atomic sampleEnv (liftParser_keepsReferences parseUTF) 2
    (sampleStream (classDescBytes.take 12)) _ _ [0x41] 1 rfl rfl (by decide)

theorem readTCAnnotationLoop_returns {E : Env U F C P D X}
    (hprog : ∀ s c t, E.readTCContent s = (.ok c, t) → t.bs = s.bs ∧ s.current < t.current) :
    ∀ (n fuel : Nat) (acc : List C) (s : ObjectStream U P X),
      s.bs.length - s.current ≤ n → n < fuel →
      ∃ cs u, HoldsContents E cs s u ∧ cs.length ≤ s.bs.length - s.current ∧
        ((u.remaining = [] ∧
            ∃ e, readTCAnnotationLoop E fuel acc s = some (.error e, u)) ∨
          (∃ b rest e u', u.remaining = b :: rest ∧ b ≠ JAVA_TC_ENDBLOCKDATA ∧
            E.readTCContent u = (.error e, u') ∧
            readTCAnnotationLoop E fuel acc s = some (.error e, u')) ∨
          (∃ rest, u.remaining = JAVA_TC_ENDBLOCKDATA :: rest ∧
            readTCAnnotationLoop E fuel acc s
              = some (.ok (acc ++ cs), u.advance 1 u.references))) := by
  intro n
  induction n with
  | zero =>
    intro fuel acc s hn hfuel
    obtain ⟨f, hf⟩ : ∃ f, fuel = f + 1 := ⟨fuel - 1, by omega⟩
    subst hf
    have hrem : s.remaining = [] := by
      unfold ObjectStream.remaining
      exact List.drop_eq_nil_of_le (by omega)
    exact ⟨[], s, rfl, Nat.zero_le _, Or.inl ⟨hrem, _, readTCAnnotationLoop_nil E f acc hrem⟩⟩
  | succ n ih =>
    intro fuel acc s hn hfuel
    obtain ⟨f, hf⟩ : ∃ f, fuel = f + 1 := ⟨fuel - 1, by omega⟩
    subst hf
    rcases hrem : s.remaining with _ | ⟨b, rest⟩
    · exact ⟨[], s, rfl, Nat.zero_le _, Or.inl ⟨hrem, _, readTCAnnotationLoop_nil E f acc hrem⟩⟩
    · have hlen : 1 ≤ s.bs.length - s.current := by
        have := congrArg List.length hrem
        simp only [ObjectStream.remaining, List.length_drop, List.length_cons] at this
        omega
      by_cases hb : b = JAVA_TC_ENDBLOCKDATA
      · subst hb
        refine ⟨[], s, rfl, Nat.zero_le _, Or.inr (Or.inr ⟨rest, hrem, ?_⟩)⟩
        rw [readTCAnnotationLoop_end E f acc hrem]
        simp
      · have hstep := readTCAnnotationLoop_content E f acc hrem hb
        simp only [BoundedReader.andThen, boundedOf] at hstep
        rcases hR : E.readTCContent s with ⟨e | c, s1⟩
        · rw [hR] at hstep
          exact ⟨[], s, rfl, Nat.zero_le _, Or.inr (Or.inl ⟨b, rest, e, s1, hrem, hb, hR, hstep⟩)⟩
        · rw [hR] at hstep
          simp only [] at hstep
          obtain ⟨hbs, hcur⟩ := hprog _ _ _ hR
          obtain ⟨cs, u, hrun, hcnt, hcases⟩ :=
            ih f (acc ++ [c]) s1 (by rw [hbs]; omega) (by omega)
          refine ⟨c :: cs, u, ⟨b, rest, s1, hrem, hb, hR, hrun⟩, ?_, ?_⟩
          · rw [hbs] at hcnt
            simp only [List.length_cons]
            omega
          · rw [hstep]
            rcases hcases with ⟨hnil, e, he⟩ | ⟨b', rest', e, u', h1, h2, h3, h4⟩ | ⟨rest', h1, h2⟩
            · exact Or.inl ⟨hnil, e, he⟩
            · exact Or.inr (Or.inl ⟨b', rest', e, u', h1, h2, h3, h4⟩)
            · refine Or.inr (Or.inr ⟨rest', h1, ?_⟩)
              rw [h2]
              simp

theorem readTCAnnotationLoop_more_fuel {E : Env U F C P D X} :
    ∀ (fuel k : Nat) (acc : List C) (s : ObjectStream U P X)
      (r : Except Error (List C) × ObjectStream U P X),
      readTCAnnotationLoop E fuel acc s = some r →
      readTCAnnotationLoop E (fuel + k) acc s = some r := by
  intro fuel
  induction fuel with
  | zero =>
    intro k acc s r h
    simp [readTCAnnotationLoop] at h
  | succ fuel ih =>
    intro k acc s r h
    have e : fuel + 1 + k = (fuel + k) + 1 := by omega
    rw [e]
    simp only [readTCAnnotationLoop] at h ⊢
    split
    · rename_i heq
      rw [heq] at h
      exact h
    · rename_i bs s1 heq
      rw [heq] at h
      simp only at h
      split
      · rename_i hend
        rw [if_pos hend] at h
        exact h
      · rename_i hend
        rw [if_neg hend] at h
        split
        · rename_i heq2
          rw [heq2] at h
          exact h
        · rename_i content s2 heq2
          rw [heq2] at h
          exact ih k _ _ r h

/-- C20: provided every successful `readTCContent` keeps the buffer and
advances the position by at least one byte, `readTCAnnotation` returns after
at most `remaining` iterations, where `remaining` is the number of unread
bytes: it reads some contents `cs`, one per iteration and at most `remaining`
of them, and in the pass that follows it returns: an error when no byte is
left to peek at, the error of `readTCContent` when the next record is
rejected, and the list `cs` when the next byte is `TC_ENDBLOCKDATA`; so
without an end marker at a record boundary the result is an error. This is
the result for every iteration bound above `remaining` (the bound counts the
returning pass as well). -/
theorem readTCAnnotation_terminates (E : Env U F C P D X)
    (hprog : ∀ s c t, E.readTCContent s = (.ok c, t) → t.bs = s.bs ∧ s.current < t.current)
    (s : ObjectStream U P X) (fuel : Nat) (hfuel : s.bs.length - s.current < fuel) :
    (∃ cs u, HoldsContents E cs s u ∧ cs.length ≤ s.bs.length - s.current ∧
      ((u.remaining = [] ∧ ∃ e, readTCAnnotation E fuel s = some (.error e, u)) ∨
        (∃ b rest e u', u.remaining = b :: rest ∧ b ≠ JAVA_TC_ENDBLOCKDATA ∧
          E.readTCContent u = (.error e, u') ∧
          readTCAnnotation E fuel s = some (.error e, u')) ∨
        (∃ rest, u.remaining = JAVA_TC_ENDBLOCKDATA :: rest ∧
          readTCAnnotation E fuel s = some (.ok cs, u.advance 1 u.references)))) ∧
    readTCAnnotation E fuel s = readTCAnnotation E (s.bs.length - s.current + 1) s := by
  refine ⟨?_, ?_⟩
  · have := readTCAnnotationLoop_returns hprog (s.bs.length - s.current) fuel [] s (le_refl _) hfuel
    simpa [ readTCAnnotation] using this
  · unfold readTCAnnotation
    obtain ⟨r, hr⟩ : ∃ r, readTCAnnotationLoop E (s.bs.length - s.current + 1) [] s = some r := by
      obtain ⟨cs, u, _, _, hcases⟩ := readTCAnnotationLoop_returns hprog
        (s.bs.length - s.current) (s.bs.length - s.current + 1) [] s (le_refl _) (by omega)
      rcases hcases with ⟨_, e, he⟩ | ⟨_, _, _, _, _, _, _, he⟩ | ⟨_, _, he⟩
      · exact ⟨_, he⟩
      · exact ⟨_, he⟩
      · exact ⟨_, he⟩
    have := readTCAnnotationLoop_more_fuel _ (fuel - (s.bs.length - s.current + 1)) _ _ _ hr
    rw [hr, ← this]
    congr 1
    omega

theorem sampleEnv_readTCContent_progress :
    ∀ (s : ObjectStream (List Byte) (Option Nat) Unit) (c : TCNull)
      (t : ObjectStream (List Byte) (Option Nat) Unit),
      sampleEnv.readTCContent s = (.ok c, t) → t.bs = s.bs ∧ s.current < t.current := by
  intro s c t h
  have h1 : liftParser parseContent s = (.ok c, t) := h
  unfold liftParser at h1
  split at h1
  · rename_i v n hp
    simp only [Prod.mk.injEq, Except.ok.injEq] at h1
    rw [← h1.2]
    have hn : n = 1 := by
      cases hd : s.bs.drop s.current with
      | nil => rw [hd] at hp; simp [parseContent] at hp
      | cons b rest =>
        rw [hd] at hp
        simp only [parseContent] at hp
        split at hp
        · simp only [Option.some.injEq, Prod.mk.injEq] at hp
          exact hp.2.symm
        · simp at hp
    subst hn
    exact ⟨rfl, by simp⟩
  · simp at h1

/-- Witness of C20: a stream of two null records with no end marker: the loop
reads two contents and returns an error in the third pass. -/
theorem readTCAnnotation_terminates_witness :
    ∃ cs u, HoldsContents sampleEnv cs (sampleStream [0x70, 0x70]) u ∧
      cs.length ≤ (sampleStream [0x70, 0x70]).bs.length - (sampleStream [0x70, 0x70]).current ∧
      ((u.remaining = [] ∧
          ∃ e, readTCAnnotation sampleEnv 3 (sampleStream [0x70, 0x70]) = some (.error e, u)) ∨
        (∃ b rest e u', u.remaining = b :: rest ∧ b ≠ JAVA_TC_ENDBLOCKDATA ∧
          sampleEnv.readTCContent u = (.error e, u') ∧
          readTCAnnotation sampleEnv 3 (sampleStream [0x70, 0x70]) = some (.error e, u')) ∨
        (∃ rest, u.remaining = JAVA_TC_ENDBLOCKDATA :: rest ∧
          readTCAnnotation sampleEnv 3 (sampleStream [0x70, 0x70])
            = some (.ok cs, u.advance 1 u.references))) :=
  (readTCAnnotation_terminates sampleEnv sampleEnv_readTCContent_progress
    (sampleStream [0x70, 0x70]) 3 (by decide)).1

end Atomicity

end ZKAR
